import Mathlib

/-!
A shallow embedding of `govalid` (ormequ/validator).

The package validates a Go struct against the rules written in the `validate`
tags of its fields.  The development below embeds `validator.go`:

* Go values as seen through `reflect` are the inductive type `GoValue`;
* Go strings are Lean strings (valid UTF-8 texts); `len` is the byte count;
* Go's `int` is the 64-bit integer type, embedded in `Int` (the code only
  compares integers, it never does arithmetic on them);
* an `error` is a `GoError`, `nil` is `none`;
* every `for` loop is a recursive function over the list it ranges over that
  carries the variables the loop mutates.

The standard-library functions the package calls (`strings.Split`,
`strings.SplitN`, `strings.TrimLeft`, `strings.Join`, `strconv.Atoi`) are
embedded from their documented behaviour.
-/

namespace Govalid

/-! ## Values -/

/-- The enumeration `reflect.Kind`. -/
inductive Kind
  | Invalid | Bool | Int | Int8 | Int16 | Int32 | Int64
  | Uint | Uint8 | Uint16 | Uint32 | Uint64 | Uintptr
  | Float32 | Float64 | Complex64 | Complex128
  | Array | Chan | Func | Interface | Map | Pointer | Slice | String | Struct
  | UnsafePointer
  deriving DecidableEq, Repr

/-- The kinds whose values the package never looks into: every kind except
`Int`, `String`, `Slice` and `Struct`. -/
inductive OtherKind
  | Invalid | Bool | Int8 | Int16 | Int32 | Int64
  | Uint | Uint8 | Uint16 | Uint32 | Uint64 | Uintptr
  | Float32 | Float64 | Complex64 | Complex128
  | Array | Chan | Func | Interface | Map | Pointer
  | UnsafePointer
  deriving DecidableEq, Repr

/-- The `reflect.Kind` of a value of one of the other kinds. -/
def OtherKind.toKind : OtherKind → Kind
  | .Invalid => .Invalid | .Bool => .Bool | .Int8 => .Int8 | .Int16 => .Int16
  | .Int32 => .Int32 | .Int64 => .Int64 | .Uint => .Uint | .Uint8 => .Uint8
  | .Uint16 => .Uint16 | .Uint32 => .Uint32 | .Uint64 => .Uint64
  | .Uintptr => .Uintptr | .Float32 => .Float32 | .Float64 => .Float64
  | .Complex64 => .Complex64 | .Complex128 => .Complex128 | .Array => .Array
  | .Chan => .Chan | .Func => .Func | .Interface => .Interface | .Map => .Map
  | .Pointer => .Pointer | .UnsafePointer => .UnsafePointer

mutual
/-- A Go value as `reflect.ValueOf` presents it.  `int` is a value of type
`int`, `str` a string, `slice` a slice with its elements in order (a nil slice
is the empty list), `struct` a struct with its fields in declaration order,
`ptr` a non-nil pointer with the value it points to, and `other` a value of
any remaining kind (a bool, a float, a sized integer, a map, a nil pointer
and so on), whose content the package never inspects. -/
inductive GoValue
  | int (i : Int)
  | str (s : String)
  | slice (elems : List GoValue)
  | struct (fields : List StructField)
  | ptr (elem : GoValue)
  | other (k : OtherKind)
/-- One field of a struct: what `s.Type().Field(i)` and `s.Field(i)` give.
`Name` is `field.Name`, `exported` is `field.IsExported()`, `tag` is the
result of `field.Tag.Lookup("validate")` (`none` when the key is absent) and
`value` is `s.Field(i)`, whose kind is `field.Type.Kind()`. -/
inductive StructField
  | mk (Name : String) (exported : Bool) (tag : Option String) (value : GoValue)
end

/-- The method `v.Kind()`. -/
def GoValue.Kind : GoValue → Kind
  | .int _ => .Int
  | .str _ => .String
  | .slice _ => .Slice
  | .struct _ => .Struct
  | .ptr _ => .Pointer
  | .other k => k.toKind

/-- The name of a field, `field.Name`. -/
def StructField.Name : StructField → String
  | .mk n _ _ _ => n

/-- The method `field.IsExported()`. -/
def StructField.IsExported : StructField → Bool
  | .mk _ e _ _ => e

/-- The lookup `field.Tag.Lookup("validate")`. -/
def StructField.tag : StructField → Option String
  | .mk _ _ t _ => t

/-- The value of a field, `s.Field(i)`. -/
def StructField.value : StructField → GoValue
  | .mk _ _ _ v => v

/-! ## Errors -/

/-- The `error` values the package produces: its three sentinels, compared by
identity, and the fresh errors made by `errors.New`. -/
inductive GoError
  | ErrNotStruct
  | ErrInvalidValidatorSyntax
  | ErrValidateForUnexportedFields
  | new (msg : String)
  deriving DecidableEq, Repr

export GoError (ErrNotStruct ErrInvalidValidatorSyntax ErrValidateForUnexportedFields)

/-- The method `Error()` of an error: its message. -/
def GoError.Error : GoError → String
  | .ErrNotStruct => "wrong argument given, should be a struct"
  | .ErrInvalidValidatorSyntax => "invalid validator syntax"
  | .ErrValidateForUnexportedFields => "validation for unexported field is not allowed"
  | .new msg => msg

/-- The struct `ValidationError`; a nil `Err` is `none`. -/
structure ValidationError where
  Err : Option GoError
  deriving DecidableEq, Repr

/-- The slice type `ValidationErrors`. -/
abbrev ValidationErrors := List ValidationError

/-- What `Validate` returns when it does not return nil: a plain error or a
collection of violations. -/
inductive ValidateError
  | err (e : GoError)
  | errs (v : ValidationErrors)
  deriving DecidableEq, Repr

/-! ## The standard library -/

/-- The text before the first `sep` and the text after it, when `sep` occurs. -/
def cutChars (sep : Char) : List Char → Option (List Char × List Char)
  | [] => none
  | c :: cs =>
    if c = sep then some ([], cs)
    else match cutChars sep cs with
      | none => none
      | some (a, b) => some (c :: a, b)

/-- The pieces of a text between the occurrences of `sep`. -/
def splitChars (sep : Char) : List Char → List (List Char)
  | [] => [[]]
  | c :: cs =>
    if c = sep then [] :: splitChars sep cs
    else match splitChars sep cs with
      | [] => [[c]]
      | p :: ps => (c :: p) :: ps

/-- The call `strings.Split(s, sep)` for a separator of one ASCII character:
the substrings of `s` between the separators, one more than there are
separators. -/
def Split (s : String) (sep : Char) : List String :=
  (splitChars sep s.data).map String.mk

/-- The call `strings.SplitN(s, sep, 2)` for a separator of one ASCII
character: `s` cut at its first separator, or `s` alone when it has none. -/
def SplitN2 (s : String) (sep : Char) : List String :=
  match cutChars sep s.data with
  | none => [s]
  | some (a, b) => [String.mk a, String.mk b]

/-- The call `strings.TrimLeft(s, " ")`: `s` without its leading spaces. -/
def TrimLeft (s : String) : String :=
  String.mk (s.data.dropWhile (fun c => c == ' '))

/-- The call `strings.Join(elems, sep)`. -/
def Join (elems : List String) (sep : String) : String :=
  match elems with
  | [] => ""
  | e :: es => es.foldl (fun acc x => acc ++ sep ++ x) e

/-- The value of a run of decimal digits read after the value `acc`, `none`
when a character is not a digit. -/
def digitsValue : List Char → Nat → Option Nat
  | [], acc => some acc
  | c :: cs, acc =>
    if 48 ≤ c.toNat ∧ c.toNat ≤ 57 then digitsValue cs (acc * 10 + (c.toNat - 48))
    else none

/-- The call `strconv.Atoi(s)` with a 64-bit `int`, `none` when it returns an
error: an optional sign, then one or more decimal digits, whose value must
lie between `-2^63` and `2^63 - 1`. -/
def Atoi (s : String) : Option Int :=
  match s.data with
  | [] => none
  | c :: cs =>
    let neg := c == '-'
    let ds := if c == '-' || c == '+' then cs else c :: cs
    if ds.isEmpty then none
    else match digitsValue ds 0 with
      | none => none
      | some n =>
        if neg then (if n ≤ 2 ^ 63 then some (-(n : Int)) else none)
        else (if n < 2 ^ 63 then some (n : Int) else none)

/-- The builtin `len(s)` of a string: its number of bytes. -/
def len (s : String) : Int := (s.utf8ByteSize : Int)

/-! ## The package -/

/-- The function `getSize`. -/
def getSize (v : GoValue) : Int :=
  match v with
  | .int i => i
  | .str s => len s
  | _ => -1

/-- The function `validateSize`. -/
def validateSize (sz : Int) (t : String) (check : String) (invalidText : String) :
    ValidationError :=
  match Atoi check with
  | none => ⟨some ErrInvalidValidatorSyntax⟩
  | some n =>
    let valid : Bool :=
      if t = "max" then decide (sz ≤ n)
      else if t = "min" then decide (sz ≥ n)
      else if t = "len" then decide (sz = n)
      else true
    if !valid then ⟨some (GoError.new invalidText)⟩ else ⟨none⟩

/-- The loop `for j := range set` of `ValidateField`, from the piece it is
at, with the current value of the variable `err`. -/
def inLoop (v : GoValue) (errText : String) : List String → ValidationError → ValidationError
  | [], err => err
  | p :: ps, err =>
    let err1 : ValidationError :=
      match v with
      | .int i => validateSize i "len" p errText
      | .str s => if p ≠ s then ⟨some (GoError.new errText)⟩ else ⟨none⟩
      | _ => err
    match err1.Err with
    | none => err1
    | some e => if e.Error ≠ errText then err1 else inLoop v errText ps err1

/-- The function `ValidateField`. -/
def ValidateField (v : GoValue) (name : String) (checkT : String) (checkV : String) :
    ValidationError :=
  if checkT = "min" ∨ checkT = "max" ∨ checkT = "len" then
    validateSize (getSize v) checkT checkV (name ++ " has incorrect size")
  else if checkT = "in" then
    if len checkV = 0 then ⟨some ErrInvalidValidatorSyntax⟩
    else inLoop v (name ++ " has a value that is not present in 'validate'")
      (Split checkV ',') ⟨none⟩
  else ⟨none⟩

/-- The loop `for j := 0; j < v.Len(); j++` of `ValidateStruct` over the
elements of a slice, with the current value of the variable `err`. -/
def sliceLoop (name checkT checkV : String) : List GoValue → ValidationError → ValidationError
  | [], err => err
  | e :: es, _ =>
    let err1 := ValidateField e name checkT checkV
    if err1.Err ≠ none then err1 else sliceLoop name checkT checkV es err1

/-- The loop `for _, tag := range splitTag` of `ValidateStruct` for the field
named `name` with value `v`, from the clause it is at, with the current
value of `valErrs`. -/
def tagLoop (v : GoValue) (name : String) : List String → ValidationErrors → ValidationErrors
  | [], valErrs => valErrs
  | tag :: rest, valErrs =>
    match SplitN2 (TrimLeft tag) ':' with
    | [checkT, checkV] =>
      let err : ValidationError :=
        match v with
        | .slice elems => sliceLoop name checkT checkV elems ⟨none⟩
        | _ => ValidateField v name checkT checkV
      if err.Err ≠ none then valErrs ++ [err]
      else tagLoop v name rest valErrs
    | _ => tagLoop v name rest (valErrs ++ [⟨some ErrInvalidValidatorSyntax⟩])

mutual
/-- The function `ValidateStruct`. -/
def ValidateStruct : GoValue → Except GoError ValidationErrors
  | .struct fields => fieldLoop fields []
  | _ => .error (GoError.new "Validating value is not struct")
/-- The loop `for i := 0; i < s.NumField(); i++` of `ValidateStruct`, from
the field it is at, with the current value of `valErrs`. -/
def fieldLoop : List StructField → ValidationErrors → Except GoError ValidationErrors
  | [], valErrs => .ok valErrs
  | .mk name exported tag v :: rest, valErrs =>
    if v.Kind = Kind.Struct ∧ exported = true then
      match ValidateStruct v with
      | .error e => .error e
      | .ok nested => fieldLoop rest (valErrs ++ nested)
    else
      match tag with
      | none => fieldLoop rest valErrs
      | some fullTag =>
        if !exported then
          fieldLoop rest (valErrs ++ [⟨some ErrValidateForUnexportedFields⟩])
        else fieldLoop rest (tagLoop v name (Split fullTag ';') valErrs)
end

/-- The function `Validate`. -/
def Validate (s : GoValue) : Option ValidateError :=
  if s.Kind ≠ Kind.Struct then some (.err ErrNotStruct)
  else
    match ValidateStruct s with
    | .error e => some (.err e)
    | .ok valErrs => if valErrs.length = 0 then none else some (.errs valErrs)

/-- The loop `for i := range v` of `ValidationErrors.Error`, which sets `s[i]`,
initially empty, to the message of `v[i].Err`; `none` when some `Err` is nil,
where the call `v[i].Err.Error()` panics. -/
def messagesLoop : ValidationErrors → Option (List String)
  | [] => some []
  | e :: es =>
    match e.Err with
    | none => none
    | some x =>
      match messagesLoop es with
      | none => none
      | some s => some (("" ++ x.Error) :: s)

/-- The method `Error()` of `ValidationErrors`; `none` when it panics. -/
def ValidationErrors.Error (v : ValidationErrors) : Option String :=
  match messagesLoop v with
  | none => none
  | some s => some (Join s "; ")

/-- The pair `(tagInfo[0], tagInfo[1])` that the clause loop of
`ValidateStruct` passes to `ValidateField` for the clause `tag`, where
`tagInfo` is `strings.SplitN(strings.TrimLeft(tag, " "), ":", 2)`; `none` when
`len(tagInfo) != 2`. -/
def tagInfoPair (tag : String) : Option (String × String) :=
  match SplitN2 (TrimLeft tag) ':' with
  | [checkT, checkV] => some (checkT, checkV)
  | _ => none

/-! ## The reference parse of the specification -/

/-- The reference parse of one clause, written from the specification: the
leading spaces are dropped and the rest is cut at its first colon only, into
the kind before the colon and the argument, which is everything after it;
`none` when there is no colon. -/
def refClause (piece : List Char) : Option (String × String) :=
  let clause := piece.dropWhile (fun c => c == ' ')
  match clause.dropWhile (fun c => c != ':') with
  | [] => none
  | _ :: argument => some (String.mk (clause.takeWhile (fun c => c != ':')), String.mk argument)

/-- The reference parse of a tag, written from the specification: the tag is
split on every semicolon and each piece is parsed as a clause. -/
def refParse (tag : String) : List (Option (String × String)) :=
  (tag.data.splitOn ';').map refClause

/-! ## Inputs used in the statements -/

/-- The record `r` wrapped in one-field records, one per entry of the list:
each level is a struct whose only field is exported, has the given name and
`validate` tag (`none` for no tag) and holds the next level. -/
def wrapIn : List (String × Option String) → GoValue → GoValue
  | [], r => r
  | (n, t) :: l, r => .struct [.mk n true t (wrapIn l r)]

/-! ## Auxiliary facts about the loops -/

theorem len_eq_zero_iff (s : String) : len s = 0 ↔ s = "" := by
  cases s with
  | mk cs =>
    cases cs with
    | nil => simp [len, String.utf8ByteSize]
    | cons c cs =>
      have hc : 0 < c.utf8Size := Char.utf8Size_pos c
      have hne : (String.mk (c :: cs)) ≠ "" := by
        intro h
        have h2 := congrArg String.data h
        simp at h2
      simp only [len, String.utf8ByteSize_mk, String.utf8Len_cons, hne, iff_false]
      omega

theorem splitChars_ne_nil (sep : Char) (cs : List Char) : splitChars sep cs ≠ [] := by
  cases cs with
  | nil => simp [splitChars]
  | cons c cs =>
    simp only [splitChars]
    split
    · simp
    · split <;> simp

theorem Split_ne_nil (s : String) (sep : Char) : Split s sep ≠ [] := by
  simp [Split, splitChars_ne_nil]

theorem tagLoop_acc (v : GoValue) (name : String) (tags : List String) (acc : ValidationErrors) :
    tagLoop v name tags acc = acc ++ tagLoop v name tags [] := by
  induction tags generalizing acc with
  | nil => simp [tagLoop]
  | cons tag rest ih =>
    simp only [tagLoop]
    split
    · split
      · simp
      · exact ih acc
    · rw [ih (acc ++ _), ih ([] ++ _)]
      simp

theorem OtherKind.toKind_ne (k : OtherKind) :
    k.toKind ≠ Kind.Struct ∧ k.toKind ≠ Kind.Slice ∧ k.toKind ≠ Kind.Int ∧
      k.toKind ≠ Kind.String := by
  cases k <;> simp [OtherKind.toKind]

theorem Kind_eq_Struct_iff (v : GoValue) : v.Kind = Kind.Struct ↔ ∃ fs, v = .struct fs := by
  cases v <;> simp [GoValue.Kind, (OtherKind.toKind_ne _).1]

theorem fieldLoop_nil (acc : ValidationErrors) : fieldLoop [] acc = .ok acc := by
  rw [fieldLoop]

theorem fieldLoop_nested (name : String) (tag : Option String) (fs1 : List StructField)
    (rest : List StructField) (acc : ValidationErrors) :
    fieldLoop (.mk name true tag (.struct fs1) :: rest) acc =
      match fieldLoop fs1 [] with
      | .error e => .error e
      | .ok nested => fieldLoop rest (acc ++ nested) := by
  cases tag <;> simp [fieldLoop, GoValue.Kind, ValidateStruct]

theorem fieldLoop_untagged (name : String) (exported : Bool) (v : GoValue)
    (rest : List StructField) (acc : ValidationErrors)
    (hk : ¬(v.Kind = Kind.Struct ∧ exported = true)) :
    fieldLoop (.mk name exported none v :: rest) acc = fieldLoop rest acc := by
  rw [fieldLoop, if_neg hk]

theorem fieldLoop_unexported (name : String) (fullTag : String) (v : GoValue)
    (rest : List StructField) (acc : ValidationErrors) :
    fieldLoop (.mk name false (some fullTag) v :: rest) acc =
      fieldLoop rest (acc ++ [⟨some ErrValidateForUnexportedFields⟩]) := by
  rw [fieldLoop, if_neg (by simp)]
  simp

theorem fieldLoop_tagged (name : String) (fullTag : String) (v : GoValue)
    (rest : List StructField) (acc : ValidationErrors) (hk : v.Kind ≠ Kind.Struct) :
    fieldLoop (.mk name true (some fullTag) v :: rest) acc =
      fieldLoop rest (tagLoop v name (Split fullTag ';') acc) := by
  rw [fieldLoop, if_neg (fun h => hk h.1)]
  simp

theorem fieldLoop_ok : (fs : List StructField) → ∀ acc : ValidationErrors,
    ∃ r, fieldLoop fs [] = .ok r ∧ fieldLoop fs acc = .ok (acc ++ r)
  | [], acc => ⟨[], by simp [fieldLoop]⟩
  | .mk name exported tag v :: rest, acc => by
    obtain ⟨r0, h0, -⟩ := fieldLoop_ok rest []
    have hrest : ∀ a, fieldLoop rest a = .ok (a ++ r0) := fun a => by
      obtain ⟨r1, h1, h2⟩ := fieldLoop_ok rest a
      rw [h0] at h1
      cases h1
      exact h2
    by_cases hk : v.Kind = Kind.Struct ∧ exported = true
    · obtain ⟨fs1, rfl⟩ := (Kind_eq_Struct_iff v).1 hk.1
      obtain ⟨n, hn, -⟩ := fieldLoop_ok fs1 []
      rw [hk.2]
      exact ⟨n ++ r0, by simp [fieldLoop_nested, hn, hrest],
        by simp [fieldLoop_nested, hn, hrest]⟩
    · cases tag with
      | none => exact ⟨r0, by simp [fieldLoop_untagged _ _ _ _ _ hk, hrest]⟩
      | some fullTag =>
        cases exported with
        | true =>
          have hk1 : v.Kind ≠ Kind.Struct := fun h => hk ⟨h, rfl⟩
          refine ⟨tagLoop v name (Split fullTag ';') [] ++ r0, ?_, ?_⟩
          · simp [fieldLoop_tagged _ _ _ _ _ hk1, hrest]
          · rw [fieldLoop_tagged _ _ _ _ _ hk1, hrest, tagLoop_acc]
            simp
        | false =>
          exact ⟨[⟨some ErrValidateForUnexportedFields⟩] ++ r0,
            by simp [fieldLoop_unexported, hrest]⟩
termination_by fs => sizeOf fs

theorem fieldLoop_ok_eq (fs : List StructField) (acc r : ValidationErrors)
    (h : fieldLoop fs [] = .ok r) : fieldLoop fs acc = .ok (acc ++ r) := by
  obtain ⟨r1, h1, h2⟩ := fieldLoop_ok fs acc
  rw [h] at h1
  cases h1
  exact h2

theorem fieldLoop_cons (f : StructField) :
    ∃ c, fieldLoop [f] [] = .ok c ∧
      ∀ rest acc, fieldLoop (f :: rest) acc = fieldLoop rest (acc ++ c) := by
  obtain ⟨name, exported, tag, v⟩ := f
  by_cases hk : v.Kind = Kind.Struct ∧ exported = true
  · obtain ⟨fs1, rfl⟩ := (Kind_eq_Struct_iff v).1 hk.1
    obtain ⟨n, hn, -⟩ := fieldLoop_ok fs1 []
    rw [hk.2]
    refine ⟨n, by simp [fieldLoop_nested, hn, fieldLoop_nil], ?_⟩
    intro rest acc
    simp [fieldLoop_nested, hn]
  · cases tag with
    | none =>
      refine ⟨[], by simp [fieldLoop_untagged _ _ _ _ _ hk, fieldLoop_nil], ?_⟩
      intro rest acc
      simp [fieldLoop_untagged _ _ _ _ _ hk]
    | some fullTag =>
      cases exported with
      | true =>
        have hk1 : v.Kind ≠ Kind.Struct := fun h => hk ⟨h, rfl⟩
        refine ⟨tagLoop v name (Split fullTag ';') [],
          by simp [fieldLoop_tagged _ _ _ _ _ hk1, fieldLoop_nil], ?_⟩
        intro rest acc
        rw [fieldLoop_tagged _ _ _ _ _ hk1, tagLoop_acc]
      | false =>
        refine ⟨[⟨some ErrValidateForUnexportedFields⟩],
          by simp [fieldLoop_unexported, fieldLoop_nil], ?_⟩
        intro rest acc
        simp [fieldLoop_unexported]

theorem fieldLoop_append (xs ys : List StructField) (a b : ValidationErrors)
    (ha : fieldLoop xs [] = .ok a) (hb : fieldLoop ys [] = .ok b) :
    fieldLoop (xs ++ ys) [] = .ok (a ++ b) := by
  induction xs generalizing a with
  | nil =>
    simp only [fieldLoop_nil, Except.ok.injEq] at ha
    subst ha
    simpa using hb
  | cons f xs ih =>
    obtain ⟨c, -, hc⟩ := fieldLoop_cons f
    obtain ⟨r, hr, -⟩ := fieldLoop_ok xs []
    obtain ⟨-, h1⟩ := fieldLoop_ok xs ([] ++ c)
    obtain ⟨r2, hr2, h2⟩ := fieldLoop_ok (xs ++ ys) ([] ++ c)
    have h3 := ih r hr
    rw [hc, fieldLoop_ok_eq xs _ r hr] at ha
    rw [List.cons_append, hc, fieldLoop_ok_eq (xs ++ ys) _ _ h3]
    simp only [Except.ok.injEq] at ha
    subst ha
    simp

theorem ValidateStruct_struct (fs : List StructField) :
    ValidateStruct (.struct fs) = fieldLoop fs [] := by
  rw [ValidateStruct]

theorem Validate_struct_eq (fs : List StructField) (r : ValidationErrors)
    (h : fieldLoop fs [] = .ok r) :
    Validate (.struct fs) = if r.length = 0 then none else some (.errs r) := by
  simp [Validate, GoValue.Kind, ValidateStruct_struct, h]

theorem wrapIn_struct (l : List (String × Option String)) (rs : List StructField) :
    ∃ fs, wrapIn l (.struct rs) = .struct fs := by
  cases l with
  | nil => exact ⟨rs, rfl⟩
  | cons a l => exact ⟨_, rfl⟩

theorem ite_not_bool (b : Bool) (x y : ValidationError) :
    (if (!b) = true then x else y) = if b = true then y else x := by
  cases b <;> simp

theorem validateSize_parsed (sz n : Int) (t check invalidText : String)
    (h : Atoi check = some n) :
    validateSize sz t check invalidText =
      if (if t = "max" then decide (sz ≤ n) else if t = "min" then decide (sz ≥ n)
          else if t = "len" then decide (sz = n) else true) = true
      then ⟨none⟩ else ⟨some (GoError.new invalidText)⟩ := by
  unfold validateSize
  simp only [h]
  exact ite_not_bool _ _ _

theorem validateSize_parsed_cases (sz n : Int) (t check invalidText : String)
    (h : Atoi check = some n) :
    validateSize sz t check invalidText = ⟨none⟩ ∨
      validateSize sz t check invalidText = ⟨some (GoError.new invalidText)⟩ := by
  rw [validateSize_parsed _ _ _ _ _ h]
  exact ite_eq_or_eq _ _ _

theorem validateSize_unparsed (sz : Int) (t check invalidText : String)
    (h : Atoi check = none) :
    validateSize sz t check invalidText = ⟨some ErrInvalidValidatorSyntax⟩ := by
  simp only [validateSize, h]

theorem inLoop_str (s errText : String) (ps : List String) (err : ValidationError) :
    inLoop (.str s) errText ps err =
      if s ∈ ps then ⟨none⟩ else if ps = [] then err else ⟨some (GoError.new errText)⟩ := by
  induction ps generalizing err with
  | nil => simp [inLoop]
  | cons p ps ih =>
    by_cases hp : p = s
    · simp [inLoop, hp]
    · have hp2 : ¬ s = p := fun h => hp h.symm
      simp only [inLoop, ne_eq, hp, not_false_eq_true, if_true, GoError.Error,
        not_true_eq_false, if_false, ih, List.mem_cons, hp2, false_or]
      by_cases hm : s ∈ ps
      · simp [hm]
      · simp only [hm, if_false]
        split <;> simp

theorem inLoop_int (i : Int) (errText : String) (ps : List String) (err : ValidationError)
    (h : ∀ p ∈ ps, (Atoi p).isSome = true) :
    inLoop (.int i) errText ps err =
      if some i ∈ ps.map Atoi then ⟨none⟩
      else if ps = [] then err else ⟨some (GoError.new errText)⟩ := by
  induction ps generalizing err with
  | nil => simp [inLoop]
  | cons p ps ih =>
    have hps : ∀ q ∈ ps, (Atoi q).isSome = true := fun q hq => h q (List.mem_cons_of_mem _ hq)
    obtain ⟨n, hn⟩ := Option.isSome_iff_exists.1 (h p (List.mem_cons_self _ _))
    by_cases hi : i = n
    · subst hi
      simp [inLoop, validateSize_parsed _ _ _ _ _ hn, hn]
    · have hi2 : ¬ n = i := fun h => hi h.symm
      simp only [inLoop, validateSize_parsed _ _ _ _ _ hn, GoError.Error, ih _ hps]
      simp only [String.reduceEq, if_false, if_true, decide_eq_true_eq, hi, ne_eq,
        not_true_eq_false, List.map_cons, List.mem_cons, hn, Option.some.injEq, false_or]
      by_cases hm : some i ∈ ps.map Atoi
      · simp [hm]
      · simp only [hm, if_false]
        split <;> simp

theorem cutChars_of_mem (sep : Char) (cs : List Char) (h : sep ∈ cs) :
    ∃ a b, cutChars sep cs = some (a, b) := by
  induction cs with
  | nil => cases h
  | cons c cs ih =>
    by_cases hc : c = sep
    · exact ⟨[], cs, by simp [cutChars, hc]⟩
    · have hmem : sep ∈ cs := by
        rcases List.mem_cons.1 h with h1 | h1
        · exact absurd h1.symm hc
        · exact h1
      obtain ⟨a, b, hab⟩ := ih hmem
      exact ⟨c :: a, b, by simp [cutChars, hc, hab]⟩

theorem cutChars_eq_none (sep : Char) (cs : List Char) (h : sep ∉ cs) :
    cutChars sep cs = none := by
  induction cs with
  | nil => rfl
  | cons c cs ih =>
    have hc : ¬ c = sep := fun hc => h (by simp [hc])
    have hmem : sep ∉ cs := fun hm => h (List.mem_cons_of_mem _ hm)
    simp [cutChars, hc, ih hmem]

theorem mem_dropWhile_space (cs : List Char) (h : ':' ∈ cs) :
    ':' ∈ cs.dropWhile (fun c => c == ' ') := by
  induction cs with
  | nil => cases h
  | cons c cs ih =>
    by_cases hc : c = ' '
    · subst hc
      rcases List.mem_cons.1 h with h1 | h1
      · exact absurd h1 (by decide)
      · rw [List.dropWhile_cons_of_pos (by simp)]
        exact ih h1
    · rw [List.dropWhile_cons_of_neg (by simpa using hc)]
      exact h

theorem SplitN2_of_mem (c : String) (h : ':' ∈ c.data) :
    ∃ k a, SplitN2 (TrimLeft c) ':' = [k, a] := by
  obtain ⟨a, b, hab⟩ := cutChars_of_mem ':' _ (mem_dropWhile_space c.data h)
  exact ⟨String.mk a, String.mk b, by simp [SplitN2, TrimLeft, hab]⟩

theorem clauses_of_mem (tags : List String) (h : ∀ c ∈ tags, ':' ∈ c.data) :
    ∃ kas : List (String × String),
      tags.map (fun c => SplitN2 (TrimLeft c) ':') = kas.map (fun ka => [ka.1, ka.2]) := by
  induction tags with
  | nil => exact ⟨[], rfl⟩
  | cons c tags ih =>
    obtain ⟨kas, hk⟩ := ih (fun d hd => h d (List.mem_cons_of_mem _ hd))
    obtain ⟨k, a, hka⟩ := SplitN2_of_mem c (h c (List.mem_cons_self _ _))
    exact ⟨(k, a) :: kas, by simp [hka, hk]⟩

theorem Err_eq_none (e : ValidationError) (h : e.Err = none) : e = ⟨none⟩ := by
  cases e
  simp_all

theorem sliceLoop_find (name checkT checkV : String) (elems : List GoValue)
    (err : ValidationError) :
    sliceLoop name checkT checkV elems err =
      ((elems.map (fun e => ValidateField e name checkT checkV)).find?
        (fun e => e.Err.isSome)).getD (if elems.isEmpty then err else ⟨none⟩) := by
  induction elems generalizing err with
  | nil => simp [sliceLoop]
  | cons e es ih =>
    cases hE : (ValidateField e name checkT checkV).Err with
    | none =>
      have h0 := Err_eq_none _ hE
      simp only [sliceLoop, ih, h0, List.map_cons, List.find?_cons]
      cases es <;> simp
    | some x => simp [sliceLoop, hE, List.find?_cons]

theorem tagLoop_find (v : GoValue) (name : String) (tags : List String)
    (kas : List (String × String))
    (h : tags.map (fun c => SplitN2 (TrimLeft c) ':') = kas.map (fun ka => [ka.1, ka.2])) :
    tagLoop v name tags [] =
      ((kas.map (fun ka =>
          match v with
          | .slice elems => sliceLoop name ka.1 ka.2 elems ⟨none⟩
          | _ => ValidateField v name ka.1 ka.2)).find? (fun e => e.Err.isSome)).toList := by
  induction tags generalizing kas with
  | nil =>
    cases kas with
    | nil => simp [tagLoop]
    | cons ka kas => simp at h
  | cons c tags ih =>
    cases kas with
    | nil => simp at h
    | cons ka kas =>
      simp only [List.map_cons, List.cons.injEq] at h
      obtain ⟨h1, h2⟩ := h
      simp only [tagLoop, h1, List.map_cons, List.find?_cons, ih kas h2]
      cases hE : (match v with
          | .slice elems => sliceLoop name ka.1 ka.2 elems ⟨none⟩
          | _ => ValidateField v name ka.1 ka.2).Err with
      | none => simp
      | some x => simp

theorem find?_getD_eq_findSome? {α : Type} (kas : List α) (g : α → Option ValidationError)
    (hg : ∀ ka e, g ka = some e → e.Err.isSome = true) :
    (kas.map (fun ka => (g ka).getD ⟨none⟩)).find? (fun e => e.Err.isSome) =
      kas.findSome? g := by
  induction kas with
  | nil => rfl
  | cons ka kas ih =>
    cases hk : g ka with
    | none => simp [List.find?_cons, List.findSome?_cons, hk, ih]
    | some e => simp [List.find?_cons, List.findSome?_cons, hk, hg ka e hk]

theorem fieldLoop_mid (pre post : List StructField) (f : StructField)
    (a b c : ValidationErrors) (ha : fieldLoop pre [] = .ok a)
    (hb : fieldLoop post [] = .ok b) (hc : fieldLoop [f] [] = .ok c) :
    fieldLoop (pre ++ f :: post) [] = .ok (a ++ c ++ b) := by
  have h1 : fieldLoop ([f] ++ post) [] = .ok (c ++ b) := fieldLoop_append [f] post c b hc hb
  have h2 := fieldLoop_append pre ([f] ++ post) a (c ++ b) ha h1
  simpa using h2

theorem fieldLoop_single_tagged (name t : String) (v : GoValue) (hk : v.Kind ≠ Kind.Struct) :
    fieldLoop [.mk name true (some t) v] [] = .ok (tagLoop v name (Split t ';') []) := by
  rw [fieldLoop_tagged _ _ _ _ _ hk, fieldLoop_nil]

theorem fieldLoop_single_unexported (name t : String) (v : GoValue) :
    fieldLoop [.mk name false (some t) v] [] =
      .ok [⟨some ErrValidateForUnexportedFields⟩] := by
  rw [fieldLoop_unexported, fieldLoop_nil]
  rfl

theorem fieldLoop_single_untagged (name : String) (exported : Bool) (v : GoValue)
    (hk : ¬(v.Kind = Kind.Struct ∧ exported = true)) :
    fieldLoop [.mk name exported none v] [] = .ok [] := by
  rw [fieldLoop_untagged _ _ _ _ _ hk, fieldLoop_nil]

theorem fieldLoop_all_untagged (fs : List StructField)
    (h : ∀ f ∈ fs, f.tag = none ∧ f.value.Kind ≠ Kind.Struct) :
    fieldLoop fs [] = .ok [] := by
  induction fs with
  | nil => exact fieldLoop_nil []
  | cons f fs ih =>
    obtain ⟨name, exported, tag, v⟩ := f
    have hf := h _ (List.mem_cons_self _ _)
    simp only [StructField.tag, StructField.value] at hf
    obtain ⟨ht, hv⟩ := hf
    subst ht
    rw [fieldLoop_untagged _ _ _ _ _ (fun hk => hv hk.1)]
    exact ih (fun g hg => h g (List.mem_cons_of_mem _ hg))

theorem getSize_other (v : GoValue) (hv : v.Kind ≠ Kind.Int ∧ v.Kind ≠ Kind.String) :
    getSize v = -1 := by
  cases v with
  | int i => exact absurd rfl hv.1
  | str s => exact absurd rfl hv.2
  | _ => rfl

theorem inLoop_other (v : GoValue) (errText : String) (ps : List String)
    (hv : v.Kind ≠ Kind.Int ∧ v.Kind ≠ Kind.String) :
    inLoop v errText ps ⟨none⟩ = ⟨none⟩ := by
  cases ps with
  | nil => rfl
  | cons p ps =>
    cases v with
    | int i => exact absurd rfl hv.1
    | str s => exact absurd rfl hv.2
    | _ => rfl

theorem utf8Size_ascii (c : Char) (h : c.toNat < 128) : c.utf8Size = 1 := by
  have h1 : c.val ≤ 127 := by
    rw [UInt32.le_def, BitVec.le_def]
    simp only [Char.toNat, UInt32.toNat] at h
    have h2 : (UInt32.toBitVec 127).toNat = 127 := rfl
    omega
  simp [Char.utf8Size, h1]

theorem utf8ByteSize_ascii (s : String) (h : ∀ c ∈ s.data, c.toNat < 128) :
    s.utf8ByteSize = s.length := by
  cases s with
  | mk cs =>
    simp only [String.utf8ByteSize_mk, String.length]
    induction cs with
    | nil => rfl
    | cons c cs ih =>
      rw [String.utf8Len_cons, ih (fun d hd => h d (List.mem_cons_of_mem _ hd)),
        utf8Size_ascii c (h c (List.mem_cons_self _ _))]
      rfl

theorem intercalate_go_eq_foldl (sep : String) (es : List String) (acc : String) :
    String.intercalate.go acc sep es = es.foldl (fun a x => a ++ sep ++ x) acc := by
  induction es generalizing acc with
  | nil => rfl
  | cons e es ih => simp [String.intercalate.go, ih]

theorem Join_eq_intercalate (elems : List String) (sep : String) :
    Join elems sep = sep.intercalate elems := by
  cases elems with
  | nil => rfl
  | cons e es => simp [Join, String.intercalate, intercalate_go_eq_foldl]

theorem messagesLoop_map_some (es : List GoError) :
    messagesLoop (es.map (fun x => ⟨some x⟩)) = some (es.map GoError.Error) := by
  induction es with
  | nil => rfl
  | cons x es ih => simp [messagesLoop, ih]

theorem tagLoop_all_errors (v : GoValue) (name : String) (tags : List String)
    (acc : ValidationErrors) (h : ∀ e ∈ acc, e.Err ≠ none) :
    ∀ e ∈ tagLoop v name tags acc, e.Err ≠ none := by
  induction tags generalizing acc with
  | nil => simpa [tagLoop] using h
  | cons tag rest ih =>
    simp only [tagLoop]
    split
    · split
      · rename_i hne
        intro e he
        rcases List.mem_append.1 he with h1 | h1
        · exact h e h1
        · rw [List.mem_singleton.1 h1]
          exact hne
      · exact ih acc h
    · apply ih
      intro e he
      rcases List.mem_append.1 he with h1 | h1
      · exact h e h1
      · rw [List.mem_singleton.1 h1]
        simp

theorem fieldLoop_all_errors : (fs : List StructField) → ∀ r : ValidationErrors,
    fieldLoop fs [] = .ok r → ∀ e ∈ r, e.Err ≠ none
  | [], r, hr => by
    rw [fieldLoop_nil] at hr
    cases hr
    intro e he
    cases he
  | .mk name exported tag v :: rest, r, hr => by
    obtain ⟨r0, h0, -⟩ := fieldLoop_ok rest []
    have ih0 := fieldLoop_all_errors rest r0 h0
    by_cases hk : v.Kind = Kind.Struct ∧ exported = true
    · obtain ⟨fs1, rfl⟩ := (Kind_eq_Struct_iff v).1 hk.1
      obtain ⟨n, hn, -⟩ := fieldLoop_ok fs1 []
      have ih1 := fieldLoop_all_errors fs1 n hn
      rw [hk.2, fieldLoop_nested, hn] at hr
      simp only [fieldLoop_ok_eq rest _ r0 h0, Except.ok.injEq] at hr
      subst hr
      intro e he
      simp only [List.nil_append, List.mem_append] at he
      rcases he with h1 | h1
      · exact ih1 e h1
      · exact ih0 e h1
    · cases tag with
      | none =>
        rw [fieldLoop_untagged _ _ _ _ _ hk, h0] at hr
        cases hr
        exact ih0
      | some fullTag =>
        cases exported with
        | true =>
          have hk1 : v.Kind ≠ Kind.Struct := fun h => hk ⟨h, rfl⟩
          rw [fieldLoop_tagged _ _ _ _ _ hk1, fieldLoop_ok_eq rest _ r0 h0] at hr
          cases hr
          intro e he
          rcases List.mem_append.1 he with h1 | h1
          · exact tagLoop_all_errors v name _ [] (fun _ h => by cases h) e h1
          · exact ih0 e h1
        | false =>
          rw [fieldLoop_unexported, fieldLoop_ok_eq rest _ r0 h0] at hr
          cases hr
          intro e he
          simp only [List.nil_append, List.cons_append, List.mem_cons] at he
          rcases he with h1 | h1
          · rw [h1]
            simp
          · exact ih0 e h1
termination_by fs => sizeOf fs

theorem eq_map_some_of_all_errors (r : ValidationErrors) (h : ∀ e ∈ r, e.Err ≠ none) :
    ∃ es : List GoError, r = es.map (fun x => ⟨some x⟩) := by
  induction r with
  | nil => exact ⟨[], rfl⟩
  | cons e r ih =>
    obtain ⟨es, hes⟩ := ih (fun d hd => h d (List.mem_cons_of_mem _ hd))
    obtain ⟨err⟩ := e
    cases err with
    | none => exact absurd rfl (h _ (List.mem_cons_self _ _))
    | some x => exact ⟨x :: es, by simp [hes]⟩

theorem syntax_message_ne (name : String) :
    "invalid validator syntax" ≠ name ++ " has a value that is not present in 'validate'" := by
  intro h
  have h2 := congrArg String.length h
  rw [String.length_append] at h2
  have h3 : " has a value that is not present in 'validate'".length = 46 := by decide
  have h4 : "invalid validator syntax".length = 24 := by decide
  omega

theorem inLoop_int_nomatch (i : Int) (errText : String) (ps : List String)
    (err : ValidationError) (hE : "invalid validator syntax" ≠ errText)
    (h : ∀ p ∈ ps, Atoi p ≠ some i) :
    inLoop (.int i) errText ps err =
      if none ∈ ps.map Atoi then ⟨some ErrInvalidValidatorSyntax⟩
      else if ps = [] then err else ⟨some (GoError.new errText)⟩ := by
  induction ps generalizing err with
  | nil => simp [inLoop]
  | cons p ps ih =>
    have hps : ∀ q ∈ ps, Atoi q ≠ some i := fun q hq => h q (List.mem_cons_of_mem _ hq)
    cases hn : Atoi p with
    | none =>
      simp [inLoop, validateSize_unparsed _ _ _ _ hn, GoError.Error, hE, hn]
    | some n =>
      have hi : ¬ i = n := fun hi => h p (List.mem_cons_self _ _) (by rw [hn, hi])
      simp only [inLoop, validateSize_parsed _ _ _ _ _ hn, GoError.Error, ih _ hps]
      simp only [String.reduceEq, if_false, if_true, decide_eq_true_eq, hi, ne_eq,
        not_true_eq_false, List.map_cons, List.mem_cons, hn, false_or]
      by_cases hm : none ∈ ps.map Atoi
      · simp [hm]
      · simp only [hm, if_false]
        split <;> simp

theorem splitChars_eq_singleton_nil (sep : Char) (cs : List Char)
    (h : splitChars sep cs = [[]]) : cs = [] := by
  cases cs with
  | nil => rfl
  | cons c cs =>
    exfalso
    simp only [splitChars] at h
    split at h
    · simp only [List.cons.injEq, true_and] at h
      exact splitChars_ne_nil sep cs h
    · split at h <;> simp at h

theorem Split_eq_singleton_empty (s : String) (sep : Char) (h : Split s sep = [""]) :
    s = "" := by
  cases s with
  | mk cs =>
    have h2 : splitChars sep cs = [[]] := by
      simp only [Split] at h
      cases hs : splitChars sep cs with
      | nil => exact absurd hs (splitChars_ne_nil sep cs)
      | cons a as =>
        rw [hs] at h
        simp only [List.map_cons, List.cons.injEq, List.map_eq_nil_iff] at h
        obtain ⟨h3, h4⟩ := h
        have h5 := congrArg String.data h3
        simp only at h5
        rw [h4]
        exact congrArg (fun x => [x]) h5
    rw [splitChars_eq_singleton_nil sep cs h2]

theorem splitChars_eq_splitOn (sep : Char) (cs : List Char) :
    splitChars sep cs = cs.splitOn sep := by
  induction cs with
  | nil => simp [splitChars, List.splitOn, List.splitOnP_nil]
  | cons c cs ih =>
    have hne := splitChars_ne_nil sep cs
    simp only [List.splitOn] at ih ⊢
    rw [List.splitOnP_cons, ← ih]
    simp only [splitChars, beq_iff_eq]
    by_cases hc : c = sep
    · simp [hc]
    · simp only [hc, if_false]
      cases hs : splitChars sep cs with
      | nil => exact absurd hs hne
      | cons q qs => rfl

theorem cutChars_eq_takeWhile (sep : Char) (l : List Char) :
    cutChars sep l =
      match l.dropWhile (fun c => c != sep) with
      | [] => none
      | _ :: argument => some (l.takeWhile (fun c => c != sep), argument) := by
  induction l with
  | nil => rfl
  | cons c l ih =>
    by_cases hc : c = sep
    · simp [cutChars, hc, List.dropWhile, List.takeWhile]
    · have hb : (c != sep) = true := by simpa using hc
      simp only [cutChars, hc, if_false, ih, List.dropWhile_cons, List.takeWhile_cons, hb,
        if_true]
      cases l.dropWhile (fun c => c != sep) <;> rfl

theorem tagInfoPair_eq_refClause (piece : List Char) :
    tagInfoPair (String.mk piece) = refClause piece := by
  simp only [tagInfoPair, SplitN2, TrimLeft, refClause, cutChars_eq_takeWhile]
  cases (piece.dropWhile (fun c => c == ' ')).dropWhile (fun c => c != ':') <;> rfl

theorem tagLoop_cons_pair (v : GoValue) (name tag : String) (rest : List String)
    (acc : ValidationErrors) :
    tagLoop v name (tag :: rest) acc =
      match tagInfoPair tag with
      | some (checkT, checkV) =>
        if (match v with
            | .slice elems => sliceLoop name checkT checkV elems ⟨none⟩
            | _ => ValidateField v name checkT checkV).Err ≠ none
        then acc ++ [match v with
            | .slice elems => sliceLoop name checkT checkV elems ⟨none⟩
            | _ => ValidateField v name checkT checkV]
        else tagLoop v name rest acc
      | none => tagLoop v name rest (acc ++ [⟨some ErrInvalidValidatorSyntax⟩]) := by
  simp only [tagLoop, tagInfoPair, SplitN2]
  cases cutChars ':' (TrimLeft tag).data with
  | none => rfl
  | some ab => rfl

theorem tagLoop_congr (v : GoValue) (name : String) (tags tags1 : List String)
    (acc : ValidationErrors) (h : tags.map tagInfoPair = tags1.map tagInfoPair) :
    tagLoop v name tags acc = tagLoop v name tags1 acc := by
  induction tags generalizing tags1 acc with
  | nil =>
    cases tags1 with
    | nil => rfl
    | cons c cs => simp at h
  | cons t ts ih =>
    cases tags1 with
    | nil => simp at h
    | cons c cs =>
      simp only [List.map_cons, List.cons.injEq] at h
      rw [tagLoop_cons_pair, tagLoop_cons_pair, h.1]
      cases tagInfoPair c with
      | none => exact ih cs _ h.2
      | some ka => simp only [ih cs acc h.2]

theorem splitChars_cons_sep (sep : Char) (cs : List Char) :
    splitChars sep (sep :: cs) = [] :: splitChars sep cs := by
  simp [splitChars]

theorem splitChars_cons_ne (sep c : Char) (cs q : List Char) (qs : List (List Char))
    (hc : ¬ c = sep) (h : splitChars sep cs = q :: qs) :
    splitChars sep (c :: cs) = (c :: q) :: qs := by
  simp [splitChars, hc, h]

theorem splitChars_append_sep (sep : Char) (xs ys : List Char) :
    splitChars sep (xs ++ sep :: ys) = splitChars sep xs ++ splitChars sep ys := by
  induction xs with
  | nil => simp [splitChars]
  | cons c xs ih =>
    by_cases hc : c = sep
    · subst hc
      rw [List.cons_append, splitChars_cons_sep, splitChars_cons_sep, ih]
      rfl
    · cases hs : splitChars sep xs with
      | nil => exact absurd hs (splitChars_ne_nil sep xs)
      | cons q qs =>
        rw [hs] at ih
        rw [List.cons_append, splitChars_cons_ne sep c _ q (qs ++ splitChars sep ys) hc ih,
          splitChars_cons_ne sep c _ q qs hc hs]
        rfl

theorem splitChars_replicate_space (n : Nat) (ys : List Char) :
    ∃ q qs, splitChars ';' ys = q :: qs ∧
      splitChars ';' (List.replicate n ' ' ++ ys) = (List.replicate n ' ' ++ q) :: qs := by
  induction n with
  | zero =>
    cases hs : splitChars ';' ys with
    | nil => exact absurd hs (splitChars_ne_nil ';' ys)
    | cons q qs => exact ⟨q, qs, rfl, by simpa using hs⟩
  | succ n ih =>
    obtain ⟨q, qs, h1, h2⟩ := ih
    refine ⟨q, qs, h1, ?_⟩
    rw [List.replicate_succ, List.cons_append,
      splitChars_cons_ne ';' ' ' _ _ qs (by decide) h2]
    rfl

theorem tagInfoPair_replicate_space (n : Nat) (q : List Char) :
    tagInfoPair (String.mk (List.replicate n ' ' ++ q)) = tagInfoPair (String.mk q) := by
  have h : (List.replicate n ' ' ++ q).dropWhile (fun c => c == ' ') =
      q.dropWhile (fun c => c == ' ') := by
    induction n with
    | zero => simp
    | succ n ih => simp [List.replicate_succ, List.dropWhile_cons, ih]
  simp only [tagInfoPair, TrimLeft, h]

theorem Split_spaces_pairs (n : Nat) (ys : List Char) :
    (Split (String.mk (List.replicate n ' ' ++ ys)) ';').map tagInfoPair =
      (Split (String.mk ys) ';').map tagInfoPair := by
  obtain ⟨q, qs, h1, h2⟩ := splitChars_replicate_space n ys
  simp only [Split, h1, h2, List.map_cons, tagInfoPair_replicate_space]

theorem Split_sep_spaces_pairs (n : Nat) (xs ys : List Char) :
    (Split (String.mk (xs ++ ';' :: (List.replicate n ' ' ++ ys))) ';').map tagInfoPair =
      (Split (String.mk (xs ++ ';' :: ys)) ';').map tagInfoPair := by
  have h := Split_spaces_pairs n ys
  simp only [Split] at h
  simp only [Split, splitChars_append_sep, List.map_append, h]

theorem ValidateStruct_tag_congr (name t t1 : String) (v : GoValue)
    (pre post : List StructField) (hv : v.Kind ≠ Kind.Struct)
    (h : (Split t ';').map tagInfoPair = (Split t1 ';').map tagInfoPair) :
    ValidateStruct (.struct (pre ++ .mk name true (some t) v :: post)) =
      ValidateStruct (.struct (pre ++ .mk name true (some t1) v :: post)) := by
  obtain ⟨a, ha, -⟩ := fieldLoop_ok pre []
  obtain ⟨b, hb, -⟩ := fieldLoop_ok post []
  rw [ValidateStruct_struct, ValidateStruct_struct,
    fieldLoop_mid pre post _ a b _ ha hb (fieldLoop_single_tagged name t v hv),
    fieldLoop_mid pre post _ a b _ ha hb (fieldLoop_single_tagged name t1 v hv),
    tagLoop_congr v name _ _ [] h]

theorem SplitN2_of_tagInfoPair (c k a : String) (h : tagInfoPair c = some (k, a)) :
    SplitN2 (TrimLeft c) ':' = [k, a] := by
  simp only [tagInfoPair, SplitN2] at h ⊢
  cases hc : cutChars ':' (TrimLeft c).data with
  | none => simp [hc] at h
  | some ab =>
    obtain ⟨x, y⟩ := ab
    simp only [hc, Option.some.injEq, Prod.mk.injEq] at h
    rw [← h.1, ← h.2]

theorem clauses_of_pairs (tags : List String) (kas : List (String × String))
    (h : tags.map tagInfoPair = kas.map some) :
    tags.map (fun c => SplitN2 (TrimLeft c) ':') = kas.map (fun ka => [ka.1, ka.2]) := by
  induction tags generalizing kas with
  | nil =>
    cases kas with
    | nil => rfl
    | cons ka kas => simp at h
  | cons c tags ih =>
    cases kas with
    | nil => simp at h
    | cons ka kas =>
      simp only [List.map_cons, List.cons.injEq] at h
      simp only [List.map_cons, ih kas h.2, SplitN2_of_tagInfoPair c ka.1 ka.2 h.1]

theorem Split_pairs_eq_refParse (t : String) :
    (Split t ';').map tagInfoPair = refParse t := by
  simp only [Split, refParse, splitChars_eq_splitOn, List.map_map]
  apply List.map_congr_left
  intro piece _
  exact tagInfoPair_eq_refClause piece

/-! ## The root value -/

/-- C1: for every root value whose kind is not `Struct`, `Validate` returns
exactly the sentinel `ErrNotStruct`, and so no collection of violations. -/
theorem Validate_not_struct (s : GoValue) (h : s.Kind ≠ Kind.Struct) :
    Validate s = some (ValidateError.err ErrNotStruct) ∧
      ∀ c : ValidationErrors, Validate s ≠ some (ValidateError.errs c) := by
  have h1 : Validate s = some (ValidateError.err ErrNotStruct) := by
    simp [Validate, h]
  exact ⟨h1, fun c hc => by rw [h1] at hc; cases hc⟩

/-- The instance of C1 at a pointer to a struct with a failing field. -/
theorem Validate_not_struct_witness :
    Validate (.ptr (.struct [.mk "Foo" true (some "len:3") (.str "a")])) =
        some (ValidateError.err ErrNotStruct) ∧
      ∀ c : ValidationErrors,
        Validate (.ptr (.struct [.mk "Foo" true (some "len:3") (.str "a")])) ≠
          some (ValidateError.errs c) :=
  Validate_not_struct _ (by decide)

/-- C2: for every root value of kind `Struct`, `ValidateStruct` returns a
collection and no error; `Validate` returns nil exactly when that collection
is empty and otherwise returns the collection itself; it never returns an
empty collection and never a plain error. -/
theorem Validate_struct (s : GoValue) (h : s.Kind = Kind.Struct) :
    ∃ valErrs : ValidationErrors, ValidateStruct s = .ok valErrs ∧
      (Validate s = none ↔ valErrs = []) ∧
      (valErrs ≠ [] → Validate s = some (ValidateError.errs valErrs)) ∧
      Validate s ≠ some (ValidateError.errs []) ∧
      ∀ e : GoError, Validate s ≠ some (ValidateError.err e) := by
  obtain ⟨fs, rfl⟩ := (Kind_eq_Struct_iff s).1 h
  obtain ⟨r, hr, -⟩ := fieldLoop_ok fs []
  have hv := Validate_struct_eq fs r hr
  refine ⟨r, by rw [ValidateStruct_struct, hr], ?_, ?_, ?_, ?_⟩
  · rw [hv]
    cases r <;> simp
  · intro hne
    rw [hv]
    cases r with
    | nil => exact absurd rfl hne
    | cons a r => simp
  · rw [hv]
    cases r <;> simp
  · intro e
    rw [hv]
    cases r <;> simp

/-- The instance of C2 at a struct with one passing and two failing fields. -/
theorem Validate_struct_witness :
    ∃ valErrs : ValidationErrors,
      ValidateStruct (.struct [.mk "A" true (some "min:1") (.int 5),
        .mk "B" true (some "len:3") (.str "a"), .mk "C" true (some "max:2") (.int 7)]) =
          .ok valErrs ∧
      (Validate (.struct [.mk "A" true (some "min:1") (.int 5),
        .mk "B" true (some "len:3") (.str "a"), .mk "C" true (some "max:2") (.int 7)]) = none ↔
          valErrs = []) ∧
      (valErrs ≠ [] → Validate (.struct [.mk "A" true (some "min:1") (.int 5),
        .mk "B" true (some "len:3") (.str "a"), .mk "C" true (some "max:2") (.int 7)]) =
          some (ValidateError.errs valErrs)) ∧
      Validate (.struct [.mk "A" true (some "min:1") (.int 5),
        .mk "B" true (some "len:3") (.str "a"), .mk "C" true (some "max:2") (.int 7)]) ≠
          some (ValidateError.errs []) ∧
      ∀ e : GoError, Validate (.struct [.mk "A" true (some "min:1") (.int 5),
        .mk "B" true (some "len:3") (.str "a"), .mk "C" true (some "max:2") (.int 7)]) ≠
          some (ValidateError.err e) :=
  Validate_struct _ (by decide)

/-! ## The rule evaluators -/

/-- C3: for every value, field name and argument that `strconv.Atoi` parses
as the integer `N`, `ValidateField` reports no violation for `min` exactly
when `getSize v ≥ N`, for `max` exactly when `getSize v ≤ N` and for `len`
exactly when `getSize v = N`; a violation it reports carries the message made
of the field name followed by " has incorrect size"; and `getSize` is the
integer itself for an integer and `len` of the text for a text. -/
theorem ValidateField_size (v : GoValue) (name arg : String) (N : Int)
    (hN : Atoi arg = some N) :
    ((ValidateField v name "min" arg).Err = none ↔ getSize v ≥ N) ∧
    ((ValidateField v name "max" arg).Err = none ↔ getSize v ≤ N) ∧
    ((ValidateField v name "len" arg).Err = none ↔ getSize v = N) ∧
    (∀ kind, kind = "min" ∨ kind = "max" ∨ kind = "len" →
      (ValidateField v name kind arg).Err ≠ none →
      ValidateField v name kind arg =
        ⟨some (GoError.new (name ++ " has incorrect size"))⟩) ∧
    (∀ i, v = .int i → getSize v = i) ∧ (∀ s, v = .str s → getSize v = len s) := by
  refine ⟨?_, ?_, ?_, ?_, ?_, ?_⟩
  · simp only [ValidateField, validateSize_parsed _ _ _ _ _ hN]
    by_cases h : getSize v ≥ N <;> simp [h]
  · simp only [ValidateField, validateSize_parsed _ _ _ _ _ hN]
    by_cases h : getSize v ≤ N <;> simp [h]
  · simp only [ValidateField, validateSize_parsed _ _ _ _ _ hN]
    by_cases h : getSize v = N <;> simp [h]
  · intro kind hk
    rw [ValidateField, if_pos hk]
    rcases validateSize_parsed_cases (getSize v) N kind arg (name ++ " has incorrect size") hN
      with h | h <;> simp [h]
  · rintro i rfl
    rfl
  · rintro s rfl
    rfl

/-- The instance of C3 at the text "abcd" with the argument "-6". -/
theorem ValidateField_size_witness :
    ((ValidateField (.str "abcd") "Negative" "min" "-6").Err = none ↔
      getSize (.str "abcd") ≥ -6) ∧
    ((ValidateField (.str "abcd") "Negative" "max" "-6").Err = none ↔
      getSize (.str "abcd") ≤ -6) ∧
    ((ValidateField (.str "abcd") "Negative" "len" "-6").Err = none ↔
      getSize (.str "abcd") = -6) ∧
    (∀ kind, kind = "min" ∨ kind = "max" ∨ kind = "len" →
      (ValidateField (.str "abcd") "Negative" kind "-6").Err ≠ none →
      ValidateField (.str "abcd") "Negative" kind "-6" =
        ⟨some (GoError.new ("Negative" ++ " has incorrect size"))⟩) ∧
    (∀ i, GoValue.str "abcd" = .int i → getSize (.str "abcd") = i) ∧
    (∀ s, GoValue.str "abcd" = .str s → getSize (.str "abcd") = len s) :=
  ValidateField_size (.str "abcd") "Negative" "-6" (-6) (by decide)

/-- C4: for every field name and non-empty argument, `ValidateField` with
kind `in` reports no violation on a text exactly when the text is one of the
pieces of the argument split on commas, and on an integer, when every piece
is parsed by `strconv.Atoi`, exactly when the integer is the parsed value of
some piece; when there is no match the violation carries the message made of
the field name followed by " has a value that is not present in
'validate'". -/
theorem ValidateField_in (name arg : String) (harg : arg ≠ "") :
    (∀ s : String,
      ((ValidateField (.str s) name "in" arg).Err = none ↔ s ∈ Split arg ',') ∧
      (s ∉ Split arg ',' → ValidateField (.str s) name "in" arg =
        ⟨some (GoError.new (name ++ " has a value that is not present in 'validate'"))⟩)) ∧
    (∀ i : Int, (∀ p ∈ Split arg ',', (Atoi p).isSome = true) →
      ((ValidateField (.int i) name "in" arg).Err = none ↔
        ∃ p ∈ Split arg ',', Atoi p = some i) ∧
      ((¬ ∃ p ∈ Split arg ',', Atoi p = some i) → ValidateField (.int i) name "in" arg =
        ⟨some (GoError.new (name ++ " has a value that is not present in 'validate'"))⟩)) := by
  have hlen : ¬ len arg = 0 := fun h => harg ((len_eq_zero_iff arg).1 h)
  have hne := Split_ne_nil arg ','
  constructor
  · intro s
    have hv : ValidateField (.str s) name "in" arg =
        inLoop (.str s) (name ++ " has a value that is not present in 'validate'")
          (Split arg ',') ⟨none⟩ := by
      simp [ValidateField, hlen]
    rw [hv, inLoop_str]
    by_cases hm : s ∈ Split arg ',' <;> simp [hm, hne]
  · intro i hall
    have hv : ValidateField (.int i) name "in" arg =
        inLoop (.int i) (name ++ " has a value that is not present in 'validate'")
          (Split arg ',') ⟨none⟩ := by
      simp [ValidateField, hlen]
    have hiff : some i ∈ (Split arg ',').map Atoi ↔ ∃ p ∈ Split arg ',', Atoi p = some i := by
      simp [List.mem_map]
    rw [hv, inLoop_int _ _ _ _ hall, ← hiff]
    by_cases hm : some i ∈ (Split arg ',').map Atoi <;> simp [hm, hne]

/-- The instance of C4 at the field name "InInt" and the argument
"20,25,30". -/
theorem ValidateField_in_witness :
    (∀ s : String,
      ((ValidateField (.str s) "InInt" "in" "20,25,30").Err = none ↔
        s ∈ Split "20,25,30" ',') ∧
      (s ∉ Split "20,25,30" ',' → ValidateField (.str s) "InInt" "in" "20,25,30" =
        ⟨some (GoError.new ("InInt" ++ " has a value that is not present in 'validate'"))⟩)) ∧
    (∀ i : Int, (∀ p ∈ Split "20,25,30" ',', (Atoi p).isSome = true) →
      ((ValidateField (.int i) "InInt" "in" "20,25,30").Err = none ↔
        ∃ p ∈ Split "20,25,30" ',', Atoi p = some i) ∧
      ((¬ ∃ p ∈ Split "20,25,30" ',', Atoi p = some i) →
        ValidateField (.int i) "InInt" "in" "20,25,30" =
        ⟨some (GoError.new ("InInt" ++ " has a value that is not present in 'validate'"))⟩)) :=
  ValidateField_in "InInt" "20,25,30" (by decide)

/-- C5: for every value and field name, `ValidateField` returns the sentinel
`ErrInvalidValidatorSyntax`, and so no size or membership message, when the
kind is `min`, `max` or `len` and `strconv.Atoi` rejects the argument, and
when the kind is `in` and the argument is empty. -/
theorem ValidateField_malformed (v : GoValue) (name kind arg : String)
    (h : ((kind = "min" ∨ kind = "max" ∨ kind = "len") ∧ Atoi arg = none) ∨
      (kind = "in" ∧ arg = "")) :
    ValidateField v name kind arg = ⟨some ErrInvalidValidatorSyntax⟩ ∧
      ∀ msg : String, ValidateField v name kind arg ≠ ⟨some (GoError.new msg)⟩ := by
  have h1 : ValidateField v name kind arg = ⟨some ErrInvalidValidatorSyntax⟩ := by
    rcases h with ⟨hk, ha⟩ | ⟨hk, ha⟩
    · simp only [ValidateField, hk, if_true, validateSize_unparsed _ _ _ _ ha]
    · subst hk ha
      simp [ValidateField, len, String.utf8ByteSize, String.utf8ByteSize.go]
  refine ⟨h1, fun msg hm => ?_⟩
  rw [h1] at hm
  cases hm

/-- The instances of C5 at the arguments "", "abcdef", "5-" and "%12" of a
size rule and at the empty argument of `in`, each on two values. -/
theorem ValidateField_malformed_witness :
    (ValidateField (.int 11) "MinD" "min" "" = ⟨some ErrInvalidValidatorSyntax⟩ ∧
      ∀ msg : String, ValidateField (.int 11) "MinD" "min" "" ≠ ⟨some (GoError.new msg)⟩) ∧
    (ValidateField (.str "") "Foo" "len" "abcdef" = ⟨some ErrInvalidValidatorSyntax⟩ ∧
      ∀ msg : String,
        ValidateField (.str "") "Foo" "len" "abcdef" ≠ ⟨some (GoError.new msg)⟩) ∧
    (ValidateField (.int 12) "MaxD" "max" "5-" = ⟨some ErrInvalidValidatorSyntax⟩ ∧
      ∀ msg : String, ValidateField (.int 12) "MaxD" "max" "5-" ≠ ⟨some (GoError.new msg)⟩) ∧
    (ValidateField (.str "abc") "BadSpec" "len" "%12" = ⟨some ErrInvalidValidatorSyntax⟩ ∧
      ∀ msg : String,
        ValidateField (.str "abc") "BadSpec" "len" "%12" ≠ ⟨some (GoError.new msg)⟩) ∧
    (ValidateField (.other .Bool) "InEmpty" "in" "" = ⟨some ErrInvalidValidatorSyntax⟩ ∧
      ∀ msg : String,
        ValidateField (.other .Bool) "InEmpty" "in" "" ≠ ⟨some (GoError.new msg)⟩) :=
  ⟨ValidateField_malformed _ _ _ _ (Or.inl ⟨Or.inl rfl, by decide⟩),
    ValidateField_malformed _ _ _ _ (Or.inl ⟨Or.inr (Or.inr rfl), by decide⟩),
    ValidateField_malformed _ _ _ _ (Or.inl ⟨Or.inr (Or.inl rfl), by decide⟩),
    ValidateField_malformed _ _ _ _ (Or.inl ⟨Or.inr (Or.inr rfl), by decide⟩),
    ValidateField_malformed _ _ _ _ (Or.inr ⟨rfl, rfl⟩)⟩

/-! ## The traversal -/

/-- C8: there is one contribution per field, a function of the field alone,
such that the collection of a record is the concatenation of the
contributions of its fields in declaration order; the contribution of an
exported record-typed field is the collection of the nested record; and the
collection for the fields `xs ++ ys` is the collection for `xs` followed by
the collection for `ys`. -/
theorem ValidateStruct_concat :
    ∃ c : StructField → ValidationErrors,
      (∀ fs, ValidateStruct (.struct fs) = .ok (fs.map c).flatten) ∧
      (∀ name tag rs, ValidateStruct (.struct rs) =
        .ok (c (.mk name true tag (.struct rs)))) ∧
      (∀ xs ys, ∃ a b, ValidateStruct (.struct xs) = .ok a ∧
        ValidateStruct (.struct ys) = .ok b ∧
        ValidateStruct (.struct (xs ++ ys)) = .ok (a ++ b)) := by
  refine ⟨fun f => match fieldLoop [f] [] with | .ok r => r | .error _ => [], ?_, ?_, ?_⟩
  · intro fs
    rw [ValidateStruct_struct]
    induction fs with
    | nil => simp [fieldLoop_nil]
    | cons f fs ih =>
      obtain ⟨c, hc1, hc2⟩ := fieldLoop_cons f
      rw [hc2, fieldLoop_ok_eq fs _ _ ih]
      simp [hc1]
  · intro name tag rs
    obtain ⟨r, hr, -⟩ := fieldLoop_ok rs []
    simp [ValidateStruct_struct, fieldLoop_nested, hr, fieldLoop_nil]
  · intro xs ys
    obtain ⟨a, ha, -⟩ := fieldLoop_ok xs []
    obtain ⟨b, hb, -⟩ := fieldLoop_ok ys []
    exact ⟨a, b, by rw [ValidateStruct_struct, ha], by rw [ValidateStruct_struct, hb],
      by rw [ValidateStruct_struct, fieldLoop_append xs ys a b ha hb]⟩

/-- C9: a record whose only field is exported and holds the record `R`
validates to the collection of `R`, with or without a tag on the wrapping
field and whatever the tag says; the same holds for any number of levels of
wrapping; and four levels around a record whose `max:10` field holds 11 and
whose `min:10` field holds 1 give exactly those two violations. -/
theorem ValidateStruct_wrap :
    (∀ (name : String) (tag : Option String) (rs : List StructField),
      ValidateStruct (.struct [.mk name true tag (.struct rs)]) =
          ValidateStruct (.struct rs) ∧
        Validate (.struct [.mk name true tag (.struct rs)]) = Validate (.struct rs)) ∧
    (∀ (l : List (String × Option String)) (rs : List StructField),
      ValidateStruct (wrapIn l (.struct rs)) = ValidateStruct (.struct rs) ∧
        Validate (wrapIn l (.struct rs)) = Validate (.struct rs)) ∧
    Validate (wrapIn [("A1", none), ("A11", none), ("A111", none), ("A1111", none)]
        (.struct [.mk "Max" true (some "max:10") (.int 11),
          .mk "Min" true (some "min:10") (.int 1)])) =
      some (ValidateError.errs [⟨some (GoError.new "Max has incorrect size")⟩,
        ⟨some (GoError.new "Min has incorrect size")⟩]) := by
  have h1 : ∀ (name : String) (tag : Option String) (rs : List StructField),
      ValidateStruct (.struct [.mk name true tag (.struct rs)]) =
          ValidateStruct (.struct rs) ∧
        Validate (.struct [.mk name true tag (.struct rs)]) = Validate (.struct rs) := by
    intro name tag rs
    obtain ⟨r, hr, -⟩ := fieldLoop_ok rs []
    have hw : fieldLoop [.mk name true tag (.struct rs)] [] = .ok r := by
      simp [fieldLoop_nested, hr, fieldLoop_nil]
    exact ⟨by rw [ValidateStruct_struct, ValidateStruct_struct, hw, hr],
      by rw [Validate_struct_eq _ r hw, Validate_struct_eq _ r hr]⟩
  refine ⟨h1, ?_, by decide⟩
  intro l rs
  induction l with
  | nil => exact ⟨rfl, rfl⟩
  | cons a l ih =>
    obtain ⟨n, t⟩ := a
    obtain ⟨fs, hfs⟩ := wrapIn_struct l rs
    simp only [wrapIn]
    rw [hfs] at ih ⊢
    exact ⟨(h1 n t fs).1.trans ih.1, (h1 n t fs).2.trans ih.2⟩

/-! ## The clauses of one field -/

/-- C6: for an exported field of scalar kind (neither a struct nor a slice)
whose tag has a colon in every clause, at any position in a record, the
clauses are the pairs `kas` of kinds and arguments, and the field
contributes the violation of the leftmost clause that `ValidateField`
fails, and nothing when every clause passes: zero violations or exactly one,
whatever the clauses to the right of the failing clause are. -/
theorem ValidateStruct_scalar_field (name t : String) (v : GoValue)
    (pre post : List StructField)
    (hv : v.Kind ≠ Kind.Struct ∧ v.Kind ≠ Kind.Slice)
    (hcl : ∀ c ∈ Split t ';', ':' ∈ c.data) :
    ∃ kas : List (String × String),
      (Split t ';').map (fun c => SplitN2 (TrimLeft c) ':') =
        kas.map (fun ka => [ka.1, ka.2]) ∧
      ∃ a b, ValidateStruct (.struct pre) = .ok a ∧
        ValidateStruct (.struct post) = .ok b ∧
        ValidateStruct (.struct (pre ++ .mk name true (some t) v :: post)) =
          .ok (a ++ ((kas.map (fun ka => ValidateField v name ka.1 ka.2)).find?
            (fun e => e.Err.isSome)).toList ++ b) := by
  obtain ⟨kas, hkas⟩ := clauses_of_mem _ hcl
  obtain ⟨a, ha, -⟩ := fieldLoop_ok pre []
  obtain ⟨b, hb, -⟩ := fieldLoop_ok post []
  refine ⟨kas, hkas, a, b, by rw [ValidateStruct_struct, ha],
    by rw [ValidateStruct_struct, hb], ?_⟩
  rw [ValidateStruct_struct,
    fieldLoop_mid pre post _ a b _ ha hb (fieldLoop_single_tagged name t v hv.1),
    tagLoop_find v name _ kas hkas]
  cases v with
  | slice elems => exact absurd rfl hv.2
  | _ => rfl

/-- The instance of C6 at the field `A` of the test "wrong combination": the
text "efgh" under the tag `min:3; max:2`, between two other fields; and the
record of that field alone has exactly one violation. -/
theorem ValidateStruct_scalar_field_witness :
    (∃ kas : List (String × String),
      (Split "min:3; max:2" ';').map (fun c => SplitN2 (TrimLeft c) ':') =
        kas.map (fun ka => [ka.1, ka.2]) ∧
      ∃ a b, ValidateStruct (.struct [.mk "B" true (some "min:-10; max:0") (.int 10)]) =
          .ok a ∧
        ValidateStruct (.struct [.mk "E" true (some "len:2; min:2; max:2") (.str "aa")]) =
          .ok b ∧
        ValidateStruct (.struct ([.mk "B" true (some "min:-10; max:0") (.int 10)] ++
            .mk "A" true (some "min:3; max:2") (.str "efgh") ::
            [.mk "E" true (some "len:2; min:2; max:2") (.str "aa")])) =
          .ok (a ++ ((kas.map (fun ka => ValidateField (.str "efgh") "A" ka.1 ka.2)).find?
            (fun e => e.Err.isSome)).toList ++ b)) ∧
    Validate (.struct [.mk "A" true (some "min:3; max:2") (.str "efgh")]) =
      some (ValidateError.errs [⟨some (GoError.new "A has incorrect size")⟩]) :=
  ⟨ValidateStruct_scalar_field "A" "min:3; max:2" (.str "efgh") _ _
    (by decide) (by decide), by decide⟩

/-- C7: for an exported slice-valued field whose tag has a colon in every
clause, at any position in a record: a clause applied to the elements gives
the violation of the first element, in sequence order, that `ValidateField`
fails under the field name, and none when no element fails; and the field
contributes the first such violation, clause by clause, and nothing more:
at most one violation, the one the failing element gives under the name of
the field. -/
theorem ValidateStruct_slice_field (name t : String) (elems : List GoValue)
    (pre post : List StructField)
    (hcl : ∀ c ∈ Split t ';', ':' ∈ c.data) :
    (∀ checkT checkV : String, sliceLoop name checkT checkV elems ⟨none⟩ =
      ((elems.map (fun e => ValidateField e name checkT checkV)).find?
        (fun e => e.Err.isSome)).getD ⟨none⟩) ∧
    ∃ kas : List (String × String),
      (Split t ';').map (fun c => SplitN2 (TrimLeft c) ':') =
        kas.map (fun ka => [ka.1, ka.2]) ∧
      ∃ a b, ValidateStruct (.struct pre) = .ok a ∧
        ValidateStruct (.struct post) = .ok b ∧
        ValidateStruct (.struct (pre ++ .mk name true (some t) (.slice elems) :: post)) =
          .ok (a ++ (kas.findSome? (fun ka =>
            (elems.map (fun e => ValidateField e name ka.1 ka.2)).find?
              (fun e => e.Err.isSome))).toList ++ b) := by
  have hs : ∀ checkT checkV : String, sliceLoop name checkT checkV elems ⟨none⟩ =
      ((elems.map (fun e => ValidateField e name checkT checkV)).find?
        (fun e => e.Err.isSome)).getD ⟨none⟩ := by
    intro checkT checkV
    rw [sliceLoop_find]
    simp
  obtain ⟨kas, hkas⟩ := clauses_of_mem _ hcl
  obtain ⟨a, ha, -⟩ := fieldLoop_ok pre []
  obtain ⟨b, hb, -⟩ := fieldLoop_ok post []
  refine ⟨hs, kas, hkas, a, b, by rw [ValidateStruct_struct, ha],
    by rw [ValidateStruct_struct, hb], ?_⟩
  rw [ValidateStruct_struct,
    fieldLoop_mid pre post _ a b _ ha hb
      (fieldLoop_single_tagged name t (.slice elems) (by simp [GoValue.Kind])),
    tagLoop_find _ name _ kas hkas]
  simp only [hs]
  rw [find?_getD_eq_findSome?]
  intro ka e he
  simpa using List.find?_some he

/-- The instance of C7 at the field `InInt` of the test "invalid slices",
where the seventh element is the first that fails; and the record of that
field alone has exactly one violation, which names the field. -/
theorem ValidateStruct_slice_field_witness :
    ((∀ checkT checkV : String,
      sliceLoop "InInt" checkT checkV
          ([0, 1, 2, 3, 0, 1, 10, 0, 0, 1].map GoValue.int) ⟨none⟩ =
        ((([0, 1, 2, 3, 0, 1, 10, 0, 0, 1].map GoValue.int).map
          (fun e => ValidateField e "InInt" checkT checkV)).find?
            (fun e => e.Err.isSome)).getD ⟨none⟩) ∧
    ∃ kas : List (String × String),
      (Split "in:0,1,2,3" ';').map (fun c => SplitN2 (TrimLeft c) ':') =
        kas.map (fun ka => [ka.1, ka.2]) ∧
      ∃ a b, ValidateStruct (.struct []) = .ok a ∧
        ValidateStruct (.struct [.mk "MaxStr" true (some "max:1")
            (.slice [.str "", .str "1", .str "10"])]) = .ok b ∧
        ValidateStruct (.struct ([] ++ .mk "InInt" true (some "in:0,1,2,3")
            (.slice ([0, 1, 2, 3, 0, 1, 10, 0, 0, 1].map GoValue.int)) ::
            [.mk "MaxStr" true (some "max:1") (.slice [.str "", .str "1", .str "10"])])) =
          .ok (a ++ (kas.findSome? (fun ka =>
            (([0, 1, 2, 3, 0, 1, 10, 0, 0, 1].map GoValue.int).map
              (fun e => ValidateField e "InInt" ka.1 ka.2)).find?
                (fun e => e.Err.isSome))).toList ++ b)) ∧
    Validate (.struct [.mk "InInt" true (some "in:0,1,2,3")
        (.slice ([0, 1, 2, 3, 0, 1, 10, 0, 0, 1].map GoValue.int))]) =
      some (ValidateError.errs
        [⟨some (GoError.new "InInt has a value that is not present in 'validate'")⟩]) :=
  ⟨ValidateStruct_slice_field "InInt" "in:0,1,2,3" _ _ _ (by decide), by decide⟩

/-- C10: what the code does on the field `Foo string` holding "a" under the
tag `foo; len:3`: the clause `foo` has no colon and gives the sentinel
`ErrInvalidValidatorSyntax`, and the clause `len:3` after it is still
evaluated and gives a second violation for the same field; whereas under
the tag `len:x; len:3`, whose first clause is rejected by `validateSize`,
the field stops at the sentinel. -/
theorem ValidateStruct_malformed_clause_continues :
    ValidateStruct (.struct [.mk "Foo" true (some "foo; len:3") (.str "a")]) =
      .ok [⟨some ErrInvalidValidatorSyntax⟩,
        ⟨some (GoError.new "Foo has incorrect size")⟩] ∧
    Validate (.struct [.mk "Foo" true (some "foo; len:3") (.str "a")]) =
      some (ValidateError.errs [⟨some ErrInvalidValidatorSyntax⟩,
        ⟨some (GoError.new "Foo has incorrect size")⟩]) ∧
    ValidateStruct (.struct [.mk "Foo" true (some "len:x; len:3") (.str "a")]) =
      .ok [⟨some ErrInvalidValidatorSyntax⟩] := by
  exact ⟨rfl, by decide, rfl⟩

/-! ## Fields that are not evaluated -/

/-- C11: an unexported field that carries a `validate` tag contributes
exactly one violation, the sentinel `ErrValidateForUnexportedFields`,
whatever the tag says and whatever the kind and the value of the field are
(a scalar, a slice or a struct), at any position in a record: none of its
rules is evaluated. -/
theorem ValidateStruct_unexported_field (name t : String) (v : GoValue)
    (pre post : List StructField) :
    ∃ a b, ValidateStruct (.struct pre) = .ok a ∧
      ValidateStruct (.struct post) = .ok b ∧
      ValidateStruct (.struct (pre ++ .mk name false (some t) v :: post)) =
        .ok (a ++ [⟨some ErrValidateForUnexportedFields⟩] ++ b) := by
  obtain ⟨a, ha, -⟩ := fieldLoop_ok pre []
  obtain ⟨b, hb, -⟩ := fieldLoop_ok post []
  refine ⟨a, b, by rw [ValidateStruct_struct, ha], by rw [ValidateStruct_struct, hb], ?_⟩
  rw [ValidateStruct_struct,
    fieldLoop_mid pre post _ a b _ ha hb (fieldLoop_single_unexported name t v)]

/-- C14: a field without a `validate` tag that is not an exported field of
kind `Struct` contributes no violation, whatever its kind, accessibility and
value, at any position in a record; hence `Validate` returns nil for every
record none of whose fields has a tag or is of kind `Struct`, the record
without fields included. -/
theorem ValidateStruct_untagged_field :
    (∀ (name : String) (exported : Bool) (v : GoValue) (pre post : List StructField),
      ¬(v.Kind = Kind.Struct ∧ exported = true) →
      ∃ a b, ValidateStruct (.struct pre) = .ok a ∧
        ValidateStruct (.struct post) = .ok b ∧
        ValidateStruct (.struct (pre ++ .mk name exported none v :: post)) =
          .ok (a ++ b)) ∧
    (∀ fs : List StructField, (∀ f ∈ fs, f.tag = none ∧ f.value.Kind ≠ Kind.Struct) →
      Validate (.struct fs) = none) ∧
    Validate (.struct []) = none := by
  refine ⟨?_, ?_, by decide⟩
  · intro name exported v pre post hk
    obtain ⟨a, ha, -⟩ := fieldLoop_ok pre []
    obtain ⟨b, hb, -⟩ := fieldLoop_ok post []
    refine ⟨a, b, by rw [ValidateStruct_struct, ha], by rw [ValidateStruct_struct, hb], ?_⟩
    rw [ValidateStruct_struct,
      fieldLoop_mid pre post _ a b _ ha hb (fieldLoop_single_untagged name exported v hk)]
    simp
  · intro fs h
    rw [Validate_struct_eq fs [] (fieldLoop_all_untagged fs h)]
    rfl

/-- The instances of C14 at an unexported untagged field of kind `Struct`
between two failing fields, and at the record of the test "valid struct with
untagged fields". -/
theorem ValidateStruct_untagged_field_witness :
    (∃ a b, ValidateStruct (.struct [.mk "A" true (some "len:3") (.str "a")]) = .ok a ∧
        ValidateStruct (.struct [.mk "B" true (some "max:0") (.int 1)]) = .ok b ∧
        ValidateStruct (.struct ([.mk "A" true (some "len:3") (.str "a")] ++
          .mk "inner" false none (.struct [.mk "C" true (some "len:3") (.str "a")]) ::
          [.mk "B" true (some "max:0") (.int 1)])) = .ok (a ++ b)) ∧
    Validate (.struct [.mk "f1" false none (.str ""), .mk "f2" false none (.str "")]) =
      none :=
  ⟨ValidateStruct_untagged_field.1 "inner" false _ _ _ (by decide),
    ValidateStruct_untagged_field.2.1 _ (by decide)⟩

/-- C19: for every value, field name and argument, a clause whose kind is
none of "min", "max", "len" and "in" makes `ValidateField` return no
violation, also when the argument would not parse: unknown kinds are accepted
and not reported as `ErrInvalidValidatorSyntax`. -/
theorem ValidateField_unknown_kind (v : GoValue) (name kind arg : String)
    (hk : kind ≠ "min" ∧ kind ≠ "max" ∧ kind ≠ "len" ∧ kind ≠ "in") :
    ValidateField v name kind arg = ⟨none⟩ := by
  obtain ⟨h1, h2, h3, h4⟩ := hk
  simp [ValidateField, h1, h2, h3, h4]

/-- The instances of C19 at the clauses `foo:3`, `Min:3`, `:3` and `foo:`;
and a record whose fields carry such clauses validates to nil. -/
theorem ValidateField_unknown_kind_witness :
    ValidateField (.int 1) "A" "foo" "3" = ⟨none⟩ ∧
    ValidateField (.str "a") "B" "Min" "3" = ⟨none⟩ ∧
    ValidateField (.other .Bool) "C" "" "3" = ⟨none⟩ ∧
    ValidateField (.int 1) "D" "foo" "" = ⟨none⟩ ∧
    Validate (.struct [.mk "A" true (some "foo:3") (.int 1),
      .mk "B" true (some "Min:3") (.str "a"), .mk "C" true (some ":3") (.int 7),
      .mk "D" true (some "foo:; len :x") (.slice [.str "abc"])]) = none :=
  ⟨ValidateField_unknown_kind _ _ _ _ (by decide),
    ValidateField_unknown_kind _ _ _ _ (by decide),
    ValidateField_unknown_kind _ _ _ _ (by decide),
    ValidateField_unknown_kind _ _ _ _ (by decide), by decide⟩

/-- C20: an exported slice-valued field with no element, whose tag has a
colon in every clause, contributes no violation, at any position in a
record, whatever the clauses are: an argument that would not parse or an
empty `in` argument is not reported, since `ValidateField` is never called. -/
theorem ValidateStruct_empty_slice_field (name t : String) (pre post : List StructField)
    (hcl : ∀ c ∈ Split t ';', ':' ∈ c.data) :
    ∃ a b, ValidateStruct (.struct pre) = .ok a ∧
      ValidateStruct (.struct post) = .ok b ∧
      ValidateStruct (.struct (pre ++ .mk name true (some t) (.slice []) :: post)) =
        .ok (a ++ b) := by
  obtain ⟨kas, hkas⟩ := clauses_of_mem _ hcl
  obtain ⟨a, ha, -⟩ := fieldLoop_ok pre []
  obtain ⟨b, hb, -⟩ := fieldLoop_ok post []
  refine ⟨a, b, by rw [ValidateStruct_struct, ha], by rw [ValidateStruct_struct, hb], ?_⟩
  rw [ValidateStruct_struct,
    fieldLoop_mid pre post _ a b _ ha hb
      (fieldLoop_single_tagged name t (.slice []) (by simp [GoValue.Kind])),
    tagLoop_find _ name _ kas hkas]
  have hnone : (kas.map (fun ka => sliceLoop name ka.1 ka.2 [] ⟨none⟩)).find?
      (fun e => e.Err.isSome) = none := by
    simp [sliceLoop]
  simp only [hnone]
  simp

/-- The instance of C20 at the tag `min:abc; in:; len:5-` on an empty slice
between two failing fields; and the record of the test "valid slice", whose
field `C` is nil, validates to nil. -/
theorem ValidateStruct_empty_slice_field_witness :
    (∃ a b, ValidateStruct (.struct [.mk "A" true (some "len:3") (.str "a")]) = .ok a ∧
      ValidateStruct (.struct [.mk "B" true (some "max:0") (.int 1)]) = .ok b ∧
      ValidateStruct (.struct ([.mk "A" true (some "len:3") (.str "a")] ++
        .mk "S" true (some "min:abc; in:; len:5-") (.slice []) ::
        [.mk "B" true (some "max:0") (.int 1)])) = .ok (a ++ b)) ∧
    Validate (.struct [
      .mk "A" true (some "in:0,1,2,3") (.slice ([0, 1, 2, 3, 0, 1, 0, 0, 0, 1].map GoValue.int)),
      .mk "B" true (some "len:0") (.slice [.str "", .str "", .str ""]),
      .mk "C" true (some "max:10") (.slice [])]) = none :=
  ⟨ValidateStruct_empty_slice_field "S" "min:abc; in:; len:5-" _ _ (by decide), by decide⟩

/-! ## Sizes and domains -/

/-- C15, as stated, fails: the text "é" has one character and two bytes; its
size is 2, and under `len:1` it gets a violation. -/
theorem getSize_text_counterexample :
    "é".length = 1 ∧ getSize (.str "é") = 2 ∧ Atoi "1" = some 1 ∧
      ValidateField (.str "é") "F" "len" "1" =
        ⟨some (GoError.new "F has incorrect size")⟩ := by
  decide

/-- C15, amended: for every text, the size that `min`, `max` and `len`
compare against is the length of the text in bytes (`len` of the Go string);
it is the character count when every character of the text is ASCII. -/
theorem getSize_text_bytes (s name arg : String) (N : Int) (hN : Atoi arg = some N) :
    getSize (.str s) = (s.utf8ByteSize : Int) ∧
    ((ValidateField (.str s) name "min" arg).Err = none ↔ (s.utf8ByteSize : Int) ≥ N) ∧
    ((ValidateField (.str s) name "max" arg).Err = none ↔ (s.utf8ByteSize : Int) ≤ N) ∧
    ((ValidateField (.str s) name "len" arg).Err = none ↔ (s.utf8ByteSize : Int) = N) ∧
    ((∀ c ∈ s.data, c.toNat < 128) → getSize (.str s) = (s.length : Int)) := by
  have hsz : getSize (.str s) = (s.utf8ByteSize : Int) := rfl
  refine ⟨hsz, ?_, ?_, ?_, ?_⟩
  · simp only [ValidateField, validateSize_parsed _ _ _ _ _ hN, hsz]
    by_cases h : (s.utf8ByteSize : Int) ≥ N <;> simp [h]
  · simp only [ValidateField, validateSize_parsed _ _ _ _ _ hN, hsz]
    by_cases h : (s.utf8ByteSize : Int) ≤ N <;> simp [h]
  · simp only [ValidateField, validateSize_parsed _ _ _ _ _ hN, hsz]
    by_cases h : (s.utf8ByteSize : Int) = N <;> simp [h]
  · intro h
    rw [hsz, utf8ByteSize_ascii s h]

/-- The instance of the amended C15 at the text "é" and the argument "2". -/
theorem getSize_text_bytes_witness :
    getSize (.str "é") = ("é".utf8ByteSize : Int) ∧
    ((ValidateField (.str "é") "F" "min" "2").Err = none ↔ ("é".utf8ByteSize : Int) ≥ 2) ∧
    ((ValidateField (.str "é") "F" "max" "2").Err = none ↔ ("é".utf8ByteSize : Int) ≤ 2) ∧
    ((ValidateField (.str "é") "F" "len" "2").Err = none ↔ ("é".utf8ByteSize : Int) = 2) ∧
    ((∀ c ∈ "é".data, c.toNat < 128) → getSize (.str "é") = ("é".length : Int)) :=
  getSize_text_bytes "é" "F" "2" 2 (by decide)

/-- C16, as stated, fails: a boolean is neither an integer nor a text, the
argument "10" parses, and the clause `max:10` reports no violation on it. -/
theorem ValidateField_size_other_kind_counterexample :
    (GoValue.other .Bool).Kind ≠ Kind.Int ∧ (GoValue.other .Bool).Kind ≠ Kind.String ∧
      Atoi "10" = some 10 ∧ ValidateField (.other .Bool) "F" "max" "10" = ⟨none⟩ := by
  decide

/-- C16, amended: for every value whose kind is neither `Int` nor `String`
the size is -1, and a clause whose argument parses as `N` is judged on that
size: `min` reports a violation exactly when `N > -1`, `max` exactly when
`N < -1` and `len` exactly when `N ≠ -1`. -/
theorem ValidateField_size_other_kind (v : GoValue) (name arg : String) (N : Int)
    (hv : v.Kind ≠ Kind.Int ∧ v.Kind ≠ Kind.String) (hN : Atoi arg = some N) :
    getSize v = -1 ∧
    ((ValidateField v name "min" arg).Err ≠ none ↔ N > -1) ∧
    ((ValidateField v name "max" arg).Err ≠ none ↔ N < -1) ∧
    ((ValidateField v name "len" arg).Err ≠ none ↔ N ≠ -1) := by
  have hsz := getSize_other v hv
  refine ⟨hsz, ?_, ?_, ?_⟩
  · simp only [ValidateField, validateSize_parsed _ _ _ _ _ hN, hsz]
    by_cases h : (-1 : Int) ≥ N
    · have h2 : ¬ N > -1 := by omega
      simp [h, h2]
    · have h2 : N > -1 := by omega
      simp [h, h2]
  · simp only [ValidateField, validateSize_parsed _ _ _ _ _ hN, hsz]
    by_cases h : (-1 : Int) ≤ N
    · have h2 : ¬ N < -1 := by omega
      simp [h, h2]
    · have h2 : N < -1 := by omega
      simp [h, h2]
  · simp only [ValidateField, validateSize_parsed _ _ _ _ _ hN, hsz]
    by_cases h : (-1 : Int) = N
    · have h2 : ¬ N ≠ -1 := by omega
      simp [h, h2]
    · have h2 : N ≠ -1 := by omega
      simp [h, h2]

/-- The instance of the amended C16 at a boolean and the argument "10". -/
theorem ValidateField_size_other_kind_witness :
    getSize (.other .Bool) = -1 ∧
    ((ValidateField (.other .Bool) "F" "min" "10").Err ≠ none ↔ (10 : Int) > -1) ∧
    ((ValidateField (.other .Bool) "F" "max" "10").Err ≠ none ↔ (10 : Int) < -1) ∧
    ((ValidateField (.other .Bool) "F" "len" "10").Err ≠ none ↔ (10 : Int) ≠ -1) :=
  ValidateField_size_other_kind (.other .Bool) "F" "10" 10 (by decide) (by decide)

/-- C17, as stated, fails: on a boolean, which is neither an integer nor a
text, the clause `in:1,2` with its non-empty argument reports no violation. -/
theorem ValidateField_in_other_kind_counterexample :
    (GoValue.other .Bool).Kind ≠ Kind.Int ∧ (GoValue.other .Bool).Kind ≠ Kind.String ∧
      "1,2" ≠ "" ∧ ValidateField (.other .Bool) "F" "in" "1,2" = ⟨none⟩ := by
  decide

/-- C17, amended: for every value whose kind is neither `Int` nor `String`
and every non-empty argument, `ValidateField` with kind `in` reports no
violation. -/
theorem ValidateField_in_other_kind (v : GoValue) (name arg : String)
    (hv : v.Kind ≠ Kind.Int ∧ v.Kind ≠ Kind.String) (harg : arg ≠ "") :
    ValidateField v name "in" arg = ⟨none⟩ := by
  have hlen : ¬ len arg = 0 := fun h => harg ((len_eq_zero_iff arg).1 h)
  simp [ValidateField, hlen, inLoop_other v _ _ hv]

/-- The instance of the amended C17 at a float and the argument "1,2". -/
theorem ValidateField_in_other_kind_witness :
    ValidateField (.other .Float64) "F" "in" "1,2" = ⟨none⟩ :=
  ValidateField_in_other_kind (.other .Float64) "F" "1,2" (by decide) (by decide)

/-! ## The display of a collection -/

/-- C18: for every collection of violations, `Error()` returns the messages
of the violations, in the order of the collection, joined by "; "; for a
collection of one violation it is the message of that violation, so that
a collection holding only a sentinel displays as the message of the
sentinel; for the empty collection it is the empty string; and every
collection that `ValidateStruct` returns is a collection of violations, each
with an error. -/
theorem ValidationErrors_Error_joined :
    (∀ es : List GoError,
      ValidationErrors.Error (es.map (fun x => ⟨some x⟩)) =
        some ("; ".intercalate (es.map GoError.Error))) ∧
    (∀ x : GoError, ValidationErrors.Error [⟨some x⟩] = some x.Error) ∧
    ValidationErrors.Error [⟨some ErrValidateForUnexportedFields⟩] =
      some "validation for unexported field is not allowed" ∧
    ValidationErrors.Error [⟨some ErrInvalidValidatorSyntax⟩] =
      some "invalid validator syntax" ∧
    ValidationErrors.Error [] = some "" ∧
    ValidationErrors.Error [⟨some (GoError.new "A has incorrect size")⟩,
        ⟨some ErrInvalidValidatorSyntax⟩, ⟨some (GoError.new "C has incorrect size")⟩] =
      some "A has incorrect size; invalid validator syntax; C has incorrect size" ∧
    (∀ (s : GoValue) (r : ValidationErrors), ValidateStruct s = .ok r →
      ∃ es : List GoError, r = es.map (fun x => ⟨some x⟩)) := by
  refine ⟨?_, ?_, by decide, by decide, by decide, by decide, ?_⟩
  · intro es
    simp only [ValidationErrors.Error, messagesLoop_map_some, Join_eq_intercalate]
  · intro x
    simp [ValidationErrors.Error, messagesLoop, Join]
  · intro s r hr
    cases s with
    | struct fs =>
      rw [ValidateStruct_struct] at hr
      exact eq_map_some_of_all_errors r (fieldLoop_all_errors fs r hr)
    | _ => simp [ValidateStruct] at hr

/-! ## The order of the candidates of `in` -/

/-- C12, as stated, fails: the candidates of "x,1" are those of "1,x" in
another order, and on the integer 1 the clause `in:1,x` reports no violation
while `in:x,1` reports `ErrInvalidValidatorSyntax`. -/
theorem ValidateField_in_order_counterexample :
    (Split "1,x" ',').Perm (Split "x,1" ',') ∧
      ValidateField (.int 1) "F" "in" "1,x" = ⟨none⟩ ∧
      ValidateField (.int 1) "F" "in" "x,1" = ⟨some ErrInvalidValidatorSyntax⟩ := by
  decide

/-- C12, amended: for every value and field name, `ValidateField` with kind
`in` returns the same result for two arguments whose candidates are the same
up to their order, provided that, when the value is an integer, the
candidates do not hold both one whose parsed value is the integer and one
that `strconv.Atoi` rejects. -/
theorem ValidateField_in_order (v : GoValue) (name arg arg1 : String)
    (hperm : (Split arg ',').Perm (Split arg1 ','))
    (hint : ∀ i : Int, v = .int i →
      ¬((∃ p ∈ Split arg ',', Atoi p = some i) ∧ (∃ p ∈ Split arg ',', Atoi p = none))) :
    ValidateField v name "in" arg = ValidateField v name "in" arg1 := by
  by_cases ha : arg = ""
  · subst ha
    have h1 : Split arg1 ',' = [""] := by
      have h0 : Split "" ',' = [""] := rfl
      rw [h0] at hperm
      exact List.perm_singleton.1 hperm.symm
    rw [Split_eq_singleton_empty arg1 ',' h1]
  · have ha1 : ¬ arg1 = "" := by
      intro h
      subst h
      have h0 : Split "" ',' = [""] := rfl
      rw [h0] at hperm
      exact ha (Split_eq_singleton_empty arg ',' (List.perm_singleton.1 hperm))
    have hl : ¬ len arg = 0 := fun h => ha ((len_eq_zero_iff arg).1 h)
    have hl1 : ¬ len arg1 = 0 := fun h => ha1 ((len_eq_zero_iff arg1).1 h)
    have hne := Split_ne_nil arg ','
    have hne1 := Split_ne_nil arg1 ','
    have hv : ∀ a : String, ¬ len a = 0 → ValidateField v name "in" a =
        inLoop v (name ++ " has a value that is not present in 'validate'")
          (Split a ',') ⟨none⟩ := by
      intro a hla
      simp [ValidateField, hla]
    rw [hv arg hl, hv arg1 hl1]
    cases v with
    | str s =>
      rw [inLoop_str, inLoop_str]
      simp only [hperm.mem_iff, hne, hne1]
    | int i =>
      have hmap : ∀ o : Option Int, o ∈ (Split arg ',').map Atoi ↔
          o ∈ (Split arg1 ',').map Atoi := fun o => (hperm.map Atoi).mem_iff
      by_cases hm : ∃ p ∈ Split arg ',', Atoi p = some i
      · have hall : ∀ p ∈ Split arg ',', (Atoi p).isSome = true := by
          intro p hp
          cases hn : Atoi p with
          | none => exact absurd ⟨hm, p, hp, hn⟩ (hint i rfl)
          | some n => rfl
        have hall1 : ∀ p ∈ Split arg1 ',', (Atoi p).isSome = true :=
          fun p hp => hall p (hperm.mem_iff.2 hp)
        rw [inLoop_int _ _ _ _ hall, inLoop_int _ _ _ _ hall1]
        simp only [hmap, hne, hne1]
      · have hno : ∀ p ∈ Split arg ',', Atoi p ≠ some i := fun p hp h => hm ⟨p, hp, h⟩
        have hno1 : ∀ p ∈ Split arg1 ',', Atoi p ≠ some i :=
          fun p hp => hno p (hperm.mem_iff.2 hp)
        rw [inLoop_int_nomatch _ _ _ _ (syntax_message_ne name) hno,
          inLoop_int_nomatch _ _ _ _ (syntax_message_ne name) hno1]
        simp only [hmap, hne, hne1]
    | slice elems =>
      rw [inLoop_other _ _ _ (by simp [GoValue.Kind]), inLoop_other _ _ _ (by simp [GoValue.Kind])]
    | struct fs =>
      rw [inLoop_other _ _ _ (by simp [GoValue.Kind]), inLoop_other _ _ _ (by simp [GoValue.Kind])]
    | ptr e =>
      rw [inLoop_other _ _ _ (by simp [GoValue.Kind]), inLoop_other _ _ _ (by simp [GoValue.Kind])]
    | other k =>
      have hk : (GoValue.other k).Kind ≠ Kind.Int ∧ (GoValue.other k).Kind ≠ Kind.String :=
        ⟨(OtherKind.toKind_ne k).2.2.1, (OtherKind.toKind_ne k).2.2.2⟩
      rw [inLoop_other _ _ _ hk, inLoop_other _ _ _ hk]

/-- The instance of the amended C12 at the integer 5 and the arguments
"-1,x,7" and "7,-1,x", which hold a candidate that is rejected and none equal
to 5. -/
theorem ValidateField_in_order_witness :
    ValidateField (.int 5) "InC" "in" "-1,x,7" = ValidateField (.int 5) "InC" "in" "7,-1,x" :=
  ValidateField_in_order (.int 5) "InC" "-1,x,7" "7,-1,x" (by decide)
    (fun i hi => by
      cases hi
      decide)

/-! ## The parse of a tag -/

/-- C13: for an exported, tagged field that is not of kind `Struct`, at any
position in a record: the pairs of kind and argument that the clause loop
passes on, clause by clause, are those of the reference parse (split on every
semicolon, drop the leading spaces, cut at the first colon only); the
violations of the field depend on the tag through the reference parse only;
when every clause has a colon they are the first failing result over the
pairs of the reference parse; and spaces added at the start of the tag or
right after a semicolon never change the result. -/
theorem ValidateStruct_reference_parse (name : String) (v : GoValue)
    (pre post : List StructField) (hv : v.Kind ≠ Kind.Struct) :
    (∀ t : String, (Split t ';').map tagInfoPair = refParse t) ∧
    (∀ t t1 : String, refParse t = refParse t1 →
      ValidateStruct (.struct (pre ++ .mk name true (some t) v :: post)) =
        ValidateStruct (.struct (pre ++ .mk name true (some t1) v :: post))) ∧
    (∀ (t : String) (kas : List (String × String)), refParse t = kas.map some →
      ∃ a b, ValidateStruct (.struct pre) = .ok a ∧
        ValidateStruct (.struct post) = .ok b ∧
        ValidateStruct (.struct (pre ++ .mk name true (some t) v :: post)) =
          .ok (a ++ ((kas.map (fun ka =>
            match v with
            | .slice elems => sliceLoop name ka.1 ka.2 elems ⟨none⟩
            | _ => ValidateField v name ka.1 ka.2)).find?
              (fun e => e.Err.isSome)).toList ++ b)) ∧
    (∀ (n : Nat) (x y : String),
      ValidateStruct (.struct (pre ++
          .mk name true (some (String.mk (List.replicate n ' ') ++ y)) v :: post)) =
        ValidateStruct (.struct (pre ++ .mk name true (some y) v :: post)) ∧
      ValidateStruct (.struct (pre ++
          .mk name true (some (x ++ ";" ++ String.mk (List.replicate n ' ') ++ y)) v ::
            post)) =
        ValidateStruct (.struct (pre ++ .mk name true (some (x ++ ";" ++ y)) v :: post))) := by
  refine ⟨Split_pairs_eq_refParse, ?_, ?_, ?_⟩
  · intro t t1 h
    apply ValidateStruct_tag_congr name t t1 v pre post hv
    rw [Split_pairs_eq_refParse, Split_pairs_eq_refParse, h]
  · intro t kas h
    obtain ⟨a, ha, -⟩ := fieldLoop_ok pre []
    obtain ⟨b, hb, -⟩ := fieldLoop_ok post []
    refine ⟨a, b, by rw [ValidateStruct_struct, ha], by rw [ValidateStruct_struct, hb], ?_⟩
    rw [← Split_pairs_eq_refParse] at h
    rw [ValidateStruct_struct,
      fieldLoop_mid pre post _ a b _ ha hb (fieldLoop_single_tagged name t v hv),
      tagLoop_find v name _ kas (clauses_of_pairs _ kas h)]
  · intro n x y
    constructor
    · apply ValidateStruct_tag_congr name _ _ v pre post hv
      have h := Split_spaces_pairs n y.data
      simpa [String.ext_iff] using h
    · apply ValidateStruct_tag_congr name _ _ v pre post hv
      have h := Split_sep_spaces_pairs n x.data y.data
      have e1 : x ++ ";" ++ String.mk (List.replicate n ' ') ++ y =
          String.mk (x.data ++ ';' :: (List.replicate n ' ' ++ y.data)) := by
        apply String.ext
        simp
      have e2 : x ++ ";" ++ y = String.mk (x.data ++ ';' :: y.data) := by
        apply String.ext
        simp
      rw [e1, e2]
      exact h

/-- The instance of C13 at the field `MinInt` of the test "valid struct with
tagged fields"; with the reference parse of its tag, and of a tag with a
second colon, trailing spaces and a clause without colon. -/
theorem ValidateStruct_reference_parse_witness :
    ((∀ t : String, (Split t ';').map tagInfoPair = refParse t) ∧
    (∀ t t1 : String, refParse t = refParse t1 →
      ValidateStruct (.struct ([] ++ .mk "MinInt" true (some t) (.int 15) :: [])) =
        ValidateStruct (.struct ([] ++ .mk "MinInt" true (some t1) (.int 15) :: []))) ∧
    (∀ (t : String) (kas : List (String × String)), refParse t = kas.map some →
      ∃ a b, ValidateStruct (.struct []) = .ok a ∧
        ValidateStruct (.struct []) = .ok b ∧
        ValidateStruct (.struct ([] ++ .mk "MinInt" true (some t) (.int 15) :: [])) =
          .ok (a ++ ((kas.map (fun ka =>
            match GoValue.int 15 with
            | .slice elems => sliceLoop "MinInt" ka.1 ka.2 elems ⟨none⟩
            | _ => ValidateField (.int 15) "MinInt" ka.1 ka.2)).find?
              (fun e => e.Err.isSome)).toList ++ b)) ∧
    (∀ (n : Nat) (x y : String),
      ValidateStruct (.struct ([] ++
          .mk "MinInt" true (some (String.mk (List.replicate n ' ') ++ y)) (.int 15) :: [])) =
        ValidateStruct (.struct ([] ++ .mk "MinInt" true (some y) (.int 15) :: [])) ∧
      ValidateStruct (.struct ([] ++
          .mk "MinInt" true (some (x ++ ";" ++ String.mk (List.replicate n ' ') ++ y))
            (.int 15) :: [])) =
        ValidateStruct (.struct ([] ++
          .mk "MinInt" true (some (x ++ ";" ++ y)) (.int 15) :: [])))) ∧
    refParse "min:10; max:20; in:11,12,13,15,19" =
      [some ("min", "10"), some ("max", "20"), some ("in", "11,12,13,15,19")] ∧
    refParse "in:a:b ;x;  len: 3 " = [some ("in", "a:b "), none, some ("len", " 3 ")] :=
  ⟨ValidateStruct_reference_parse "MinInt" (.int 15) [] [] (by decide), by decide, by decide⟩

end Govalid
